import Mathlib

set_option maxRecDepth 100000

/-!
Shallow embedding of the MP3 (MPEG-1/2/2.5 Layer III) decoder core found in
`sonata-codec-mp3/src/bitstream.rs`, together with theorems settling the
specification claims about it.

Modelling conventions:
* Machine integers (`u8`/`u16`/`u32`/`usize`) are embedded as `Nat`.  All
  arithmetic the source performs is in range except at the specific points the
  claims are about; at those points a subtraction that would underflow or an
  index that would go out of bounds is modelled as the error value
  `RErr.fault` (a Rust panic: debug builds abort there, and the release-mode
  wrapped value equally diverges from any claimed behaviour).
* Sample buffers hold `f32` values in the source, but every operation the
  claims mention only stores constants (`0.0`, `±1.0`, `±pow43[x]`), copies
  or negates them, so the carrier is embedded as `Int` and the `pow43`
  lookup as an abstract function `Nat → Int`; no claim depends on the
  floating-point values themselves.
* Fallible operations return `Except RErr`.
* The byte/bit readers (`read_u8`, `read_buf_bytes`, `read_bit`,
  `read_bits_leq32`, `ignore_bits`, `read_huffman`) and the Huffman tables
  live in crates that are not part of the given source; they are modelled
  from the specification and marked as such.  A bitstream is a `List Bool`
  read MSB-first.
* Loops are embedded as fuel-indexed recursive functions; the fuel supplied
  at each call site strictly exceeds the number of iterations the loop can
  perform (each loop advances a cursor by at least 2 towards a bound of at
  most 576), so the `RErr.fuelOut` outcome is unreachable from the actual
  entry points.
-/

/-- Outcomes of fallible operations: decode errors and unsupported-feature
errors as in the source, `ioErr` for a failed source read, `fault` for a Rust
panic (integer underflow in a debug build, out-of-bounds index), and
`fuelOut` for fuel exhaustion of the loop embedding (unreachable from the
actual call sites). -/
inductive RErr where
  | decodeErr : RErr
  | unsupported : RErr
  | ioErr : RErr
  | fault : RErr
  | fuelOut : RErr
deriving DecidableEq, Repr

deriving instance DecidableEq for Except

/-- MPEG version, from `enum MpegVersion`. -/
inductive MpegVersion where
  | mpeg1 : MpegVersion
  | mpeg2 : MpegVersion
  | mpeg2p5 : MpegVersion
deriving DecidableEq, Repr

/-- MPEG layer, from `enum MpegLayer`. -/
inductive MpegLayer where
  | layer1 : MpegLayer
  | layer2 : MpegLayer
  | layer3 : MpegLayer
deriving DecidableEq, Repr

/-- Joint-stereo mode extension, from `enum Mode`. -/
inductive Mode where
  | layer3 (midSide : Bool) (intensity : Bool) : Mode
  | intensity (bound : Nat) : Mode
deriving DecidableEq, Repr

/-- Channel mode, from `enum Channels`. -/
inductive Channels where
  | mono : Channels
  | dualMono : Channels
  | stereo : Channels
  | jointStereo (mode : Mode) : Channels
deriving DecidableEq, Repr

/-- Emphasis, from `enum Emphasis`. -/
inductive Emphasis where
  | emphNone : Emphasis
  | fifty15 : Emphasis
  | ccitJ17 : Emphasis
deriving DecidableEq, Repr

/-- Number of channels, from `Channels::count`. -/
def Channels.count : Channels → Nat
  | .mono => 1
  | _ => 2

/-- Bit-rate lookup table `BIT_RATES_MPEG1_L1`. -/
def bitRatesMpeg1L1 : List Nat :=
  [0,
   32000, 64000, 96000, 128000, 160000, 192000, 224000,
   256000, 288000, 320000, 352000, 384000, 416000, 448000]

/-- Bit-rate lookup table `BIT_RATES_MPEG1_L2`. -/
def bitRatesMpeg1L2 : List Nat :=
  [0,
   32000, 48000, 56000, 64000, 80000, 96000, 112000,
   128000, 160000, 192000, 224000, 256000, 320000, 384000]

/-- Bit-rate lookup table `BIT_RATES_MPEG1_L3`. -/
def bitRatesMpeg1L3 : List Nat :=
  [0,
   32000, 40000, 48000, 56000, 64000, 80000, 96000,
   112000, 128000, 160000, 192000, 224000, 256000, 320000]

/-- Bit-rate lookup table `BIT_RATES_MPEG2_L1`. -/
def bitRatesMpeg2L1 : List Nat :=
  [0,
   32000, 48000, 56000, 64000, 80000, 96000, 112000,
   128000, 144000, 160000, 176000, 192000, 224000, 256000]

/-- Bit-rate lookup table `BIT_RATES_MPEG2_L23`. -/
def bitRatesMpeg2L23 : List Nat :=
  [0,
   8000, 16000, 24000, 32000, 40000, 48000, 56000,
   64000, 80000, 96000, 112000, 128000, 144000, 160000]

/-- The table `SCALE_FACTOR_LONG_BANDS` (starting indices of the long-block
scale factor bands, indexed by sample-rate index 0..8), copied verbatim from
the source. -/
def scaleFactorLongBands : List (List Nat) :=
  [ -- 44.1 kHz, MPEG version 1
    [0, 4, 8, 12, 16, 20, 24, 30, 36, 44, 52, 62, 74, 90, 110, 134,
     162, 196, 238, 288, 342, 418, 576],
    -- 48 kHz
    [0, 4, 8, 12, 16, 20, 24, 30, 36, 42, 50, 60, 72, 88, 106, 128,
     156, 190, 230, 276, 330, 384, 576],
    -- 32 kHz
    [0, 4, 8, 12, 16, 20, 24, 30, 36, 44, 54, 66, 82, 102, 126, 156,
     194, 240, 296, 364, 448, 550, 576],
    -- 22.050 kHz, MPEG version 2
    [0, 4, 12, 18, 24, 30, 36, 44, 54, 66, 80, 96, 116, 140, 168, 200,
     238, 284, 336, 396, 464, 522, 576],
    -- 24 kHz
    [0, 6, 12, 18, 24, 30, 36, 44, 54, 66, 80, 96, 114, 136, 162, 194,
     232, 278, 332, 394, 464, 540, 576],
    -- 16 kHz
    [0, 6, 12, 18, 24, 30, 36, 44, 54, 66, 80, 96, 116, 140, 168, 200,
     238, 284, 336, 396, 464, 522, 576],
    -- 11.025 kHz, MPEG version 2.5
    [0, 6, 12, 18, 24, 30, 36, 44, 54, 66, 80, 96, 116, 140, 168, 200,
     238, 284, 336, 396, 464, 522, 576],
    -- 12 kHz
    [0, 6, 12, 18, 24, 30, 36, 44, 54, 66, 80, 96, 116, 140, 168, 200,
     238, 284, 336, 396, 464, 522, 576],
    -- 8 kHz
    [0, 12, 24, 36, 48, 60, 72, 88, 108, 132, 160, 192, 232, 280, 336, 400,
     476, 566, 568, 570, 572, 574, 576] ]

/-- The table `SCALE_FACTOR_SHORT_BANDS` (starting indices of the short-block
scale factor bands divided by 3, indexed by sample-rate index 0..8), copied
verbatim from the source. -/
def scaleFactorShortBands : List (List Nat) :=
  [ [0, 4, 8, 12, 16, 22, 30, 40, 52, 66, 84, 106, 136, 192],   -- 44.1 kHz
    [0, 4, 8, 12, 16, 22, 28, 38, 50, 64, 80, 100, 126, 192],   -- 48 kHz
    [0, 4, 8, 12, 16, 22, 30, 42, 58, 78, 104, 138, 180, 192],  -- 32 kHz
    [0, 4, 8, 12, 18, 24, 32, 42, 56, 74, 100, 132, 174, 192],  -- 22.050 kHz
    [0, 4, 8, 12, 18, 26, 36, 48, 62, 80, 104, 136, 180, 192],  -- 24 kHz
    [0, 4, 8, 12, 18, 26, 36, 48, 62, 80, 104, 134, 174, 192],  -- 16 kHz
    [0, 4, 8, 12, 18, 26, 36, 48, 62, 80, 104, 134, 174, 192],  -- 11.025 kHz
    [0, 4, 8, 12, 18, 26, 36, 48, 62, 80, 104, 134, 174, 192],  -- 12 kHz
    [0, 8, 16, 24, 36, 52, 72, 96, 124, 160, 162, 164, 166, 192] ] -- 8 kHz

/-- A parsed MPEG audio frame header, from `struct FrameHeader`.  `crc` holds
the stored CRC word when the header announces one. -/
structure FrameHeader where
  version : MpegVersion
  layer : MpegLayer
  bitrate : Nat
  sampleRate : Nat
  sampleRateIdx : Nat
  channels : Channels
  emphasis : Emphasis
  isCopyrighted : Bool
  isOriginal : Bool
  hasPadding : Bool
  crc : Option Nat
  frameSize : Nat
deriving DecidableEq, Repr

/-- `FrameHeader::is_mpeg1`. -/
def FrameHeader.isMpeg1 (h : FrameHeader) : Bool :=
  h.version = MpegVersion.mpeg1

/-- `FrameHeader.is_mpeg2p5`. -/
def FrameHeader.isMpeg2p5 (h : FrameHeader) : Bool :=
  h.version = MpegVersion.mpeg2p5

/-- Version field decode, from `read_frame_header` (bits `0x18_0000`). -/
def parseVersion (header : Nat) : Except RErr MpegVersion :=
  match (header &&& 0x180000) >>> 19 with
  | 0b00 => .ok .mpeg2p5
  | 0b10 => .ok .mpeg2
  | 0b11 => .ok .mpeg1
  | _ => .error .decodeErr

/-- Layer field decode, from `read_frame_header` (bits `0x6_0000`). -/
def parseLayer (header : Nat) : Except RErr MpegLayer :=
  match (header &&& 0x60000) >>> 17 with
  | 0b01 => .ok .layer3
  | 0b10 => .ok .layer2
  | 0b11 => .ok .layer1
  | _ => .error .decodeErr

/-- Bit-rate decode, from `read_frame_header` (bits `0xf000`; index 0 is the
unsupported free bit-rate, index 15 is invalid). -/
def parseBitrate (header : Nat) (version : MpegVersion) (layer : MpegLayer) :
    Except RErr Nat :=
  let i := (header &&& 0xf000) >>> 12
  if i = 0b0000 then .error .unsupported
  else if i = 0b1111 then .error .decodeErr
  else
    match version, layer with
    | .mpeg1, .layer1 => .ok (bitRatesMpeg1L1.getD i 0)
    | .mpeg1, .layer2 => .ok (bitRatesMpeg1L2.getD i 0)
    | .mpeg1, .layer3 => .ok (bitRatesMpeg1L3.getD i 0)
    | _, .layer1 => .ok (bitRatesMpeg2L1.getD i 0)
    | _, _ => .ok (bitRatesMpeg2L23.getD i 0)

/-- Sample-rate decode, from `read_frame_header` (bits `0xc00`); returns the
rate in Hz together with the table index 0..8. -/
def parseSampleRate (header : Nat) (version : MpegVersion) :
    Except RErr (Nat × Nat) :=
  match (header &&& 0xc00) >>> 10, version with
  | 0b00, .mpeg1 => .ok (44100, 0)
  | 0b01, .mpeg1 => .ok (48000, 1)
  | 0b10, .mpeg1 => .ok (32000, 2)
  | 0b00, .mpeg2 => .ok (22050, 3)
  | 0b01, .mpeg2 => .ok (24000, 4)
  | 0b10, .mpeg2 => .ok (16000, 5)
  | 0b00, .mpeg2p5 => .ok (11025, 6)
  | 0b01, .mpeg2p5 => .ok (12000, 7)
  | 0b10, .mpeg2p5 => .ok (8000, 8)
  | _, _ => .error .decodeErr

/-- Channel-mode decode, from `read_frame_header` (bits `0xc0`).  For joint
stereo in layers 1 and 2 the source computes the intensity bound as
`(1 + (header & 0x30) >> 4) << 2`, which Rust parses as
`((1 + (header & 0x30)) >> 4) << 2` because `+` binds tighter than `>>`;
the embedding keeps those parentheses. -/
def parseChannels (header : Nat) (layer : MpegLayer) : Channels :=
  match (header &&& 0xc0) >>> 6, layer with
  | 0b00, _ => .stereo
  | 0b10, _ => .dualMono
  | 0b11, _ => .mono
  | 0b01, .layer3 =>
      .jointStereo (.layer3 (header &&& 0x20 != 0) (header &&& 0x10 != 0))
  | _, _ =>
      .jointStereo (.intensity (((1 + (header &&& 0x30)) >>> 4) <<< 2))

/-- Layer 2 channel-mode/bit-rate validity check, from `read_frame_header`. -/
def checkLayer2Bitrate (layer : MpegLayer) (channels : Channels)
    (bitrate : Nat) : Except RErr Unit :=
  if layer = MpegLayer.layer2 then
    if channels = Channels.mono then
      if bitrate = 224000 || bitrate = 256000 || bitrate = 320000 ||
         bitrate = 384000 then
        .error .decodeErr
      else .ok ()
    else
      if bitrate = 32000 || bitrate = 48000 || bitrate = 56000 ||
         bitrate = 80000 then
        .error .decodeErr
      else .ok ()
  else .ok ()

/-- Emphasis decode, from `read_frame_header` (bits `0x3`). -/
def parseEmphasis (header : Nat) : Except RErr Emphasis :=
  match header &&& 0x3 with
  | 0b00 => .ok .emphNone
  | 0b01 => .ok .fifty15
  | 0b11 => .ok .ccitJ17
  | _ => .error .decodeErr

/-- `read_frame_header`, applied to the 32-bit header word that `sync_frame`
produced.  `crcWord` stands for the result of the `read_be_u16` call that
fetches the stored CRC when the header announces one (the byte source is not
part of the given source file, so the value read is passed as an argument). -/
def parseFrameHeader (header : Nat) (crcWord : Nat) : Except RErr FrameHeader := do
  let version ← parseVersion header
  let layer ← parseLayer header
  let bitrate ← parseBitrate header version layer
  let (sampleRate, sampleRateIdx) ← parseSampleRate header version
  let channels := parseChannels header layer
  let () ← checkLayer2Bitrate layer channels bitrate
  let emphasis ← parseEmphasis header
  let isCopyrighted := header &&& 0x8 != 0
  let isOriginal := header &&& 0x4 != 0
  let hasPadding := header &&& 0x200 != 0
  let crc : Option Nat := if header &&& 0x10000 = 0 then some crcWord else none
  let frameSize :=
    (if version = MpegVersion.mpeg1 then 144 else 72) * bitrate / sampleRate
    + (if hasPadding then 1 else 0)
    - (if crc.isSome then 2 else 0)
    - 4
  .ok { version, layer, bitrate, sampleRate, sampleRateIdx, channels,
        emphasis, isCopyrighted, isOriginal, hasPadding, crc, frameSize }

/-- Modelled from the spec: the bitstream readers (`BitStreamLtr`) live in the
`sonata-core` crate, which is not part of the given source.  A bitstream is a
list of bits in MSB-first order; `bitsToNat` folds such a prefix into the
unsigned integer the reader returns. -/
def bitsToNat (bits : List Bool) : Nat :=
  bits.foldl (fun a b => 2 * a + (if b then 1 else 0)) 0

/-- Modelled from the spec: `BitStream::read_bit` returns the next bit and
fails at end of data. -/
def readBit (bs : List Bool) : Except RErr (Bool × List Bool) :=
  match bs with
  | [] => .error .ioErr
  | b :: rest => .ok (b, rest)

/-- Modelled from the spec: `BitStream::read_bits_leq32(n)` reads `n` bits
MSB-first and fails at end of data. -/
def readBitsLeq32 (n : Nat) (bs : List Bool) : Except RErr (Nat × List Bool) :=
  if bs.length < n then .error .ioErr
  else .ok (bitsToNat (bs.take n), bs.drop n)

/-- Modelled from the spec: `BitStream::ignore_bits(n)` skips `n` bits and
fails at end of data. -/
def ignoreBits (n : Nat) (bs : List Bool) : Except RErr (List Bool) :=
  if bs.length < n then .error .ioErr
  else .ok (bs.drop n)

/-- Block type of a granule channel, from `enum BlockType` (`stop` stands for
the source's `End`, which is a reserved word here). -/
inductive BlockType where
  | long : BlockType
  | start : BlockType
  | short (isMixed : Bool) : BlockType
  | stop : BlockType
deriving DecidableEq, Repr

/-- Side information of one channel in one granule, from
`struct GranuleChannel` (the `scalefacs` array and the `rzero` index are
filled by later stages and modelled where those stages are). -/
structure GranuleChannel where
  part23Length : Nat
  bigValues : Nat
  globalGain : Nat
  scalefacCompress : Nat
  blockType : BlockType
  subblockGain : List Nat
  tableSelect : List Nat
  region1Start : Nat
  region2Start : Nat
  preflag : Bool
  scalefacScale : Bool
  count1tableSelect : Bool
deriving DecidableEq, Repr

/-- `read_granule_channel_side_info_l3`: parses the per-channel side info of
one granule from the bitstream, returning the filled channel and the rest of
the stream.  The window-switching region rules, including the
`block_type_enc == 0b11` comparison, are kept exactly as in the source. -/
def readGranuleChannelSideInfoL3 (header : FrameHeader) (bs : List Bool) :
    Except RErr (GranuleChannel × List Bool) := do
  let (part23Length, bs) ← readBitsLeq32 12 bs
  let (bigValues, bs) ← readBitsLeq32 9 bs
  if bigValues > 288 then
    .error .decodeErr
  else do
  let (globalGain, bs) ← readBitsLeq32 8 bs
  let (scalefacCompress, bs) ←
    if header.isMpeg1 then readBitsLeq32 4 bs else readBitsLeq32 9 bs
  let (windowSwitching, bs) ← readBit bs
  if windowSwitching then do
    let (blockTypeEnc, bs) ← readBitsLeq32 2 bs
    let (isMixed, bs) ← readBit bs
    let blockType ←
      match blockTypeEnc with
      | 0b00 => Except.error RErr.decodeErr
      | 0b01 => Except.ok BlockType.start
      | 0b10 => Except.ok (BlockType.short isMixed)
      | _ => Except.ok BlockType.stop
    -- With window switching there are only two regions, hence two selectors;
    -- `table_select[2]` keeps its default value 0.
    let (t0, bs) ← readBitsLeq32 5 bs
    let (t1, bs) ← readBitsLeq32 5 bs
    let (g0, bs) ← readBitsLeq32 3 bs
    let (g1, bs) ← readBitsLeq32 3 bs
    let (g2, bs) ← readBitsLeq32 3 bs
    let region1Start :=
      if header.isMpeg2p5 then
        -- For MPEG2.5 the region0 band count depends on the block type.
        let region0Count :=
          match blockType with
          | BlockType.short false => 5 + 1
          | _ => 7 + 1
        (scaleFactorLongBands.getD header.sampleRateIdx []).getD region0Count 0
      -- The source comment says: if MPEG1, or the block type is Short; the
      -- code however compares the encoding against 0b11, which is End.
      else if header.isMpeg1 || blockTypeEnc = 0b11 then 36
      else 54
    let region2Start := 576
    let (preflag, bs) ←
      if header.isMpeg1 then readBit bs
      else pure (decide (scalefacCompress ≥ 500), bs)
    let (scalefacScale, bs) ← readBit bs
    let (count1tableSelect, bs) ← readBit bs
    .ok ({ part23Length, bigValues, globalGain, scalefacCompress, blockType,
           subblockGain := [g0, g1, g2], tableSelect := [t0, t1, 0],
           region1Start, region2Start, preflag, scalefacScale,
           count1tableSelect }, bs)
  else do
    -- Without window switching the block type is always Long.
    let blockType := BlockType.long
    let (t0, bs) ← readBitsLeq32 5 bs
    let (t1, bs) ← readBitsLeq32 5 bs
    let (t2, bs) ← readBitsLeq32 5 bs
    let (r0, bs) ← readBitsLeq32 4 bs
    let (r01raw, bs) ← readBitsLeq32 3 bs
    let region0Count := r0 + 1
    let region01Count := r01raw + region0Count + 1
    let region1Start :=
      (scaleFactorLongBands.getD header.sampleRateIdx []).getD region0Count 0
    let region2Start :=
      if region01Count ≤ 22 then
        (scaleFactorLongBands.getD header.sampleRateIdx []).getD region01Count 0
      else 576
    let (preflag, bs) ←
      if header.isMpeg1 then readBit bs
      else pure (decide (scalefacCompress ≥ 500), bs)
    let (scalefacScale, bs) ← readBit bs
    let (count1tableSelect, bs) ← readBit bs
    .ok ({ part23Length, bigValues, globalGain, scalefacCompress, blockType,
           subblockGain := [0, 0, 0], tableSelect := [t0, t1, t2],
           region1Start, region2Start, preflag, scalefacScale,
           count1tableSelect }, bs)

/-- The bit reservoir, from `struct BitResevoir` (source spelling): a byte
buffer together with the number of valid bytes at its front. -/
structure BitResevoir where
  buf : List Nat
  len : Nat
deriving DecidableEq, Repr

/-- `BitResevoir::new`: a zeroed 2048-byte buffer with no valid bytes. -/
def BitResevoir.new : BitResevoir :=
  { buf := List.replicate 2048 0, len := 0 }

/-- The byte-shifting loop of `BitResevoir::fill`: for `i` in `0..cnt`,
`buf[i] = buf[prev + i]`, performed sequentially in increasing order of `i`
(the source notes the copy ranges may overlap).  `i` is the next index to
write, `cnt` the number of writes still to perform. -/
def copyDown (prev : Nat) : Nat → Nat → List Nat → List Nat
  | _, 0, buf => buf
  | i, cnt + 1, buf => copyDown prev (i + 1) cnt (buf.set i (buf.getD (prev + i) 0))

/-- The effect of `read_buf_bytes(&mut buf[p..p + vals.length])`: overwrite
the bytes at positions `p..p + vals.length` with `vals`. -/
def writeBytesAt (buf : List Nat) (p : Nat) (vals : List Nat) : List Nat :=
  buf.take p ++ vals ++ buf.drop (p + vals.length)

/-- `BitResevoir::fill`: checks `main_data_begin` against the current valid
length, shifts the last `main_data_begin` valid bytes to the front, then
reads `main_data_size` bytes from the source into the following positions.
`reader` is the byte source; a source with fewer than `main_data_size` bytes
makes `read_buf_bytes` fail (`ioErr`).  Indexing `buf[main_data_begin ..
main_data_begin + main_data_size]` panics (`fault`) when the end exceeds the
buffer length. -/
def BitResevoir.fill (rsv : BitResevoir) (reader : List Nat)
    (mainDataBegin mainDataSize : Nat) : Except RErr BitResevoir :=
  if mainDataBegin > rsv.len then
    .error .decodeErr
  else
    let prev := rsv.len - mainDataBegin
    let buf1 := copyDown prev 0 mainDataBegin rsv.buf
    let mainDataEnd := mainDataBegin + mainDataSize
    if mainDataEnd > buf1.length then
      .error .fault
    else if reader.length < mainDataSize then
      .error .ioErr
    else
      .ok { buf := writeBytesAt buf1 mainDataBegin (reader.take mainDataSize),
            len := mainDataEnd }

/-- Modelled from the spec: a Huffman decode table as seen through
`sonata-core`.  `decode bs` yields the value and bit length of the codeword
at the head of `bs` (or `none` when no codeword matches); `linbits` is the
table's escape-bit count, `isEmpty` models `huff_table.data.is_empty()` for
the unused placeholder tables, and `nTableBits` is the `n_table_bits` field
the count1 loop adds to its bit budget.  The table contents live in
`huffman_tables.rs`, which is not part of the given source, so the decode
function stays abstract. -/
structure HTable where
  decode : List Bool → Option (Nat × Nat)
  linbits : Nat
  isEmpty : Bool
  nTableBits : Nat

/-- Modelled from the spec: `BitStream::read_huffman(table, budget)` decodes
one codeword and errors deterministically when the codeword needs more bits
than the given budget (or no codeword matches).  Returns the decoded value,
the consumed bit count, and the rest of the stream. -/
def readHuffman (table : HTable) (budget : Nat) (bs : List Bool) :
    Except RErr (Nat × Nat × List Bool) :=
  match table.decode bs with
  | none => .error .decodeErr
  | some (value, codeLen) =>
      if codeLen > budget then .error .decodeErr
      else .ok (value, codeLen, bs.drop codeLen)

/-- A checked store `buf[i] = v` on a 576-sample buffer: Rust panics when the
index is out of bounds. -/
def setChecked (buf : List Int) (i : Nat) (v : Int) : Except RErr (List Int) :=
  if i < buf.length then .ok (buf.set i v) else .error .fault

/-- Running state of `l3_read_huffman_samples`: the bitstream, the bits
consumed so far, the sample index `i`, and the sample buffer. -/
structure HuffSt where
  bs : List Bool
  bitsRead : Nat
  i : Nat
  buf : List Int

/-- The `part3_bits == 0` early path of `l3_read_huffman_samples`:
`for i in (0..576).step_by(4)` writing four zeros per step. -/
def zeroQuadLoop : Nat → Nat → List Int → Except RErr (List Int)
  | 0, _, _ => .error .fuelOut
  | fuel + 1, i, buf =>
    if i < 576 then do
      let buf ← setChecked buf i 0
      let buf ← setChecked buf (i + 1) 0
      let buf ← setChecked buf (i + 2) 0
      let buf ← setChecked buf (i + 3) 0
      zeroQuadLoop fuel (i + 4) buf
    else .ok buf

/-- The empty-table branch of the big_values region loop: `while i <
region_end` writing two zeros per step. -/
def zeroPairLoop (regionEnd : Nat) : Nat → HuffSt → Except RErr HuffSt
  | 0, _ => .error .fuelOut
  | fuel + 1, st =>
    if st.i < regionEnd then do
      let buf ← setChecked st.buf st.i 0
      let buf ← setChecked buf (st.i + 1) 0
      zeroPairLoop regionEnd fuel { st with buf := buf, i := st.i + 2 }
    else .ok st

/-- One of the two samples (`x` or `y`) of a big_values codeword, from the
body of the big_values loop of `l3_read_huffman_samples`: a non-zero 4-bit
magnitude is extended by `linbits` bits when saturated (value 15), then a
sign bit selects `±pow43[v]`; a zero magnitude stores `0.0`.  The linbits and
sign bits are counted in `bitsRead` but not checked against any budget. -/
def bigSample (pow43 : Nat → Int) (table : HTable) (v : Nat) (i : Nat)
    (buf : List Int) (bs : List Bool) (bitsRead : Nat) :
    Except RErr (List Int × List Bool × Nat) :=
  if v > 0 then
    (if v = 15 && table.linbits > 0 then
      (readBitsLeq32 table.linbits bs).bind (fun (ext, bs) =>
        Except.ok (v + ext, bs, bitsRead + table.linbits))
    else Except.ok (v, bs, bitsRead)).bind (fun (v, bs, bitsRead) =>
      (readBit bs).bind (fun (sign, bs) =>
        (setChecked buf i (if sign then -pow43 v else pow43 v)).bind (fun buf =>
          Except.ok (buf, bs, bitsRead + 1))))
  else
    (setChecked buf i 0).bind (fun buf => Except.ok (buf, bs, bitsRead))

/-- The decoding branch of the big_values region loop of
`l3_read_huffman_samples`: decode one codeword into the sample pair
`(x, y) = (value >> 4, value & 0xf)`.  The bit budget passed to
`read_huffman` is the `u32` difference `part3_bits - bits_read`; in a debug
build that subtraction panics when `bits_read` exceeds `part3_bits` (the
linbits and sign bits consumed after a codeword are not checked against the
budget, so this is reachable). -/
def decodePairLoop (pow43 : Nat → Int) (table : HTable) (part3Bits : Nat)
    (regionEnd : Nat) : Nat → HuffSt → Except RErr HuffSt
  | 0, _ => .error .fuelOut
  | fuel + 1, st =>
    if st.i < regionEnd then
      (if st.bitsRead > part3Bits then Except.error RErr.fault
       else Except.ok (part3Bits - st.bitsRead)).bind (fun budget =>
        (readHuffman table budget st.bs).bind (fun (value, codeLen, bs) =>
          (bigSample pow43 table (value >>> 4) st.i st.buf bs
              (st.bitsRead + codeLen)).bind (fun (buf, bs, bitsRead) =>
            (bigSample pow43 table (value &&& 0xf) (st.i + 1) buf bs
                bitsRead).bind (fun (buf, bs, bitsRead) =>
              decodePairLoop pow43 table part3Bits regionEnd fuel
                { bs := bs, bitsRead := bitsRead, i := st.i + 2, buf := buf }))))
    else .ok st

/-- One big_values region of `l3_read_huffman_samples`: select the Huffman
table for the region; an empty table zero-fills the region, otherwise the
region is decoded. -/
def regionPass (tables : Nat → HTable) (pow43 : Nat → Int) (part3Bits : Nat)
    (channel : GranuleChannel) (regionIdx regionEnd : Nat) (st : HuffSt) :
    Except RErr HuffSt :=
  let table := tables (channel.tableSelect.getD regionIdx 0)
  if table.isEmpty then zeroPairLoop regionEnd 577 st
  else decodePairLoop pow43 table part3Bits regionEnd 577 st

/-- One of the four 1-bit samples of a count1 codeword: a set bit reads a
sign bit and stores `±1.0`, a clear bit stores `0.0`. -/
def count1Sample (value mask : Nat) (i : Nat) (buf : List Int)
    (bs : List Bool) (bitsRead : Nat) :
    Except RErr (List Int × List Bool × Nat) :=
  if value &&& mask ≠ 0 then do
    let (sign, bs) ← readBit bs
    let buf ← setChecked buf i (if sign then -1 else 1)
    .ok (buf, bs, bitsRead + 1)
  else do
    let buf ← setChecked buf i 0
    .ok (buf, bs, bitsRead)

/-- The count1 partition loop of `l3_read_huffman_samples`: `while i <= 572
&& bits_read < part3_bits`, decoding one codeword into four 1-bit samples.
The budget deliberately allows `n_table_bits` extra bits so that a count1
overrun still decodes. -/
def count1Loop (table : HTable) (part3Bits : Nat) :
    Nat → HuffSt → Except RErr HuffSt
  | 0, _ => .error .fuelOut
  | fuel + 1, st =>
    if st.i ≤ 572 ∧ st.bitsRead < part3Bits then
      (readHuffman table (part3Bits + table.nTableBits - st.bitsRead)
          st.bs).bind (fun (value, codeLen, bs) =>
        (count1Sample value 0x8 st.i st.buf bs (st.bitsRead + codeLen)).bind
          (fun (buf, bs, bitsRead) =>
            (count1Sample value 0x4 (st.i + 1) buf bs bitsRead).bind
              (fun (buf, bs, bitsRead) =>
                (count1Sample value 0x2 (st.i + 2) buf bs bitsRead).bind
                  (fun (buf, bs, bitsRead) =>
                    (count1Sample value 0x1 (st.i + 3) buf bs bitsRead).bind
                      (fun (buf, bs, bitsRead) =>
                        count1Loop table part3Bits fuel
                          { bs := bs, bitsRead := bitsRead,
                            i := st.i + 4, buf := buf })))))
    else .ok st

/-- The trailing rzero zero-fill of `l3_read_huffman_samples`:
`for j in (i..576).step_by(2)` writing two zeros per step. -/
def zeroTailLoop : Nat → Nat → List Int → Except RErr (List Int)
  | 0, _, _ => .error .fuelOut
  | fuel + 1, j, buf =>
    if j < 576 then do
      let buf ← setChecked buf j 0
      let buf ← setChecked buf (j + 1) 0
      zeroTailLoop fuel (j + 2) buf
    else .ok buf

/-- `l3_read_huffman_samples`: decode the Huffman-coded spectral samples of
one granule channel into `buf`, returning the starting index of the rzero
partition together with the final buffer.  `tables` models the
`HUFFMAN_TABLES` array, `quadA`/`quadB` the two count1 tables, `pow43` the
`REQUANTIZE_POW43` lookup.  After the count1 loop, stuffing bits are skipped
when too few bits were consumed; when too many were consumed the last four
samples are unwound (`i -= 4`, a usize subtraction that panics in a debug
build when `i < 4`). -/
def l3ReadHuffmanSamples (tables : Nat → HTable) (quadA quadB : HTable)
    (pow43 : Nat → Int) (channel : GranuleChannel) (part3Bits : Nat)
    (buf : List Int) (bs : List Bool) : Except RErr (Nat × List Int) :=
  if part3Bits = 0 then
    (zeroQuadLoop 145 0 buf).bind (fun buf => Except.ok (0, buf))
  else
    let bigValuesLen := 2 * channel.bigValues
    let region0End := min channel.region1Start bigValuesLen
    let region1End := min channel.region2Start bigValuesLen
    let region2End := min 576 bigValuesLen
    let count1Table := if channel.count1tableSelect then quadB else quadA
    (regionPass tables pow43 part3Bits channel 0 region0End
        { bs := bs, bitsRead := 0, i := 0, buf := buf }).bind (fun st =>
      (regionPass tables pow43 part3Bits channel 1 region1End st).bind
        (fun st =>
          (regionPass tables pow43 part3Bits channel 2 region2End st).bind
            (fun st =>
              (count1Loop count1Table part3Bits 577 st).bind (fun st =>
                (if st.bitsRead < part3Bits then
                  (ignoreBits (part3Bits - st.bitsRead) st.bs).bind (fun bs =>
                    Except.ok { st with bs := bs })
                 else if st.bitsRead > part3Bits then
                  (if st.i < 4 then Except.error RErr.fault
                   else Except.ok { st with i := st.i - 4 })
                 else Except.ok st).bind (fun st =>
                  (zeroTailLoop 289 st.i st.buf).bind (fun buf =>
                    Except.ok (st.i, buf)))))))

/-- The inner window-interleaving loop of `l3_reorder` for one short scale
factor band starting at sample `i` with window length `w`: the source writes
`reorder_buf[i + 3*k + r] = buf[i + r*w + k]` for `k < w`, `r < 3`, i.e. the
written segment is, in write order, the list below (`q = 3*k + r`). -/
def interleaveBand (buf : List Int) (i w : Nat) : List Int :=
  (List.range (3 * w)).map (fun q => buf.getD (i + q % 3 * w + q / 3) 0)

/-- The band loop of `l3_reorder`: `while i < rzero`, interleave one band and
advance to the next.  Each band is written to `reorder_buf` at the positions
`[3*bands[sfb], 3*bands[sfb+1])`, contiguously following the previous band,
so the loop is embedded as the concatenation of the written segments.  Fuel
14 exceeds the 13 bands a pass can process (at `sfb = 13` the position is
`3*192 = 576 ≥ rzero`). -/
def bandLoop (bands : List Nat) (rzero : Nat) (buf : List Int) :
    Nat → Nat → List Int
  | 0, _ => []
  | fuel + 1, sfb =>
    let i := 3 * bands.getD sfb 0
    if i < rzero then
      let w := bands.getD (sfb + 1) 0 - bands.getD sfb 0
      interleaveBand buf i w ++ bandLoop bands rzero buf fuel (sfb + 1)
    else []

/-- `l3_reorder`: for Short blocks, interleave the three windows of every
short scale factor band below `rzero` (starting from band 3 when the block
is mixed); other block types leave the buffer untouched.  The source builds
the interleaved samples in a scratch buffer and then copies the written
range `[start, i)` back with `copy_from_slice`; the embedding equivalently
reassembles the buffer around the written segment. -/
def l3Reorder (srateIdx : Nat) (blockType : BlockType) (rzero : Nat)
    (buf : List Int) : List Int :=
  match blockType with
  | .short isMixed =>
    let bands := scaleFactorShortBands.getD srateIdx []
    let sfb0 := if isMixed then 3 else 0
    let start := 3 * bands.getD sfb0 0
    let mid := bandLoop bands rzero buf 14 sfb0
    buf.take start ++ mid ++ buf.drop (start + mid.length)
  | _ => buf

/-- One in-place negation `samples[k] = -samples[k]` on a buffer viewed as a
function from positions to values. -/
def negAt (s : Nat → Int) (k : Nat) : Nat → Int :=
  fun j => if j = k then -s k else s j

/-- The positions negated by `l3_frequency_inversion`, in the order the
source visits them: `for i in (18..576).step_by(36)`, then the unrolled
inner `for j in (i..i+16).step_by(8)` negating `j+1, j+3, j+5, j+7`, and
finally `i+18-1`. -/
def freqInvIndices : List Nat :=
  (List.range' 18 16 36).flatMap (fun i =>
    ((List.range' i 2 8).flatMap (fun j => [j + 1, j + 3, j + 5, j + 7]))
      ++ [i + 18 - 1])

/-- `l3_frequency_inversion`: negate the odd samples of the odd sub-bands,
as the sequence of in-place negations the source performs. -/
def l3FrequencyInversion (s : Nat → Int) : Nat → Int :=
  freqInvIndices.foldl negAt s

/-- The frame header parsed from the 32-bit word `0xFFFB90C0`: MPEG1 Layer
III, 128 kbps, 44.1 kHz, mono, no padding, no CRC; its frame size is 413
bytes. -/
def hdr413 : FrameHeader :=
  { version := .mpeg1, layer := .layer3, bitrate := 128000,
    sampleRate := 44100, sampleRateIdx := 0, channels := .mono,
    emphasis := .emphNone, isCopyrighted := false, isOriginal := false,
    hasPadding := false, crc := none, frameSize := 413 }

/-- A parsed MPEG2 Layer III stereo frame header (64 kbps, 22.05 kHz,
sample-rate index 3), used as the context of the window-switching side-info
failing input. -/
def hdrMpeg2 : FrameHeader :=
  { version := .mpeg2, layer := .layer3, bitrate := 64000,
    sampleRate := 22050, sampleRateIdx := 3, channels := .stereo,
    emphasis := .emphNone, isCopyrighted := false, isOriginal := false,
    hasPadding := false, crc := none, frameSize := 205 }

/-- Side-info bits of one granule channel of an MPEG2 frame:
`part2_3_length = 0`, `big_values = 0`, `global_gain = 0`,
`scalefac_compress = 0` (38 zero bits), then `window_switching = 1`,
`block_type = 0b10` (Short), `is_mixed = 0`, and zero table selects,
subblock gains, `scalefac_scale` and `count1table_select` (21 zero bits). -/
def c1bits : List Bool :=
  List.replicate 38 false ++ [true, true, false, false] ++
    List.replicate 21 false

/-- An always-failing empty Huffman table (the `data.is_empty()` placeholder
tables 4 and 14). -/
def emptyHTable : HTable :=
  { decode := fun _ => none, linbits := 0, isEmpty := true, nTableBits := 0 }

/-- Modelled from the spec: a big_values Huffman table in which the codeword
`01` decodes to the sample pair `(x, y) = (1, 0)` in two bits, as in ISO/IEC
11172-3 Huffman table 1 (the concrete tables are not part of the given
source).  `linbits = 0`. -/
def pairHTable : HTable :=
  { decode := fun bs =>
      match bs with
      | false :: true :: _ => some (0x10, 2)
      | _ => none,
    linbits := 0, isEmpty := false, nTableBits := 0 }

/-- A `HUFFMAN_TABLES` array in which table select 1 is `pairHTable` and
every other entry is an empty placeholder. -/
def tablesC68 : Nat → HTable :=
  fun n => if n = 1 then pairHTable else emptyHTable

/-- A placeholder `pow43` lookup; the claims do not depend on its values. -/
def pow43Id : Nat → Int :=
  fun n => (n : Int)

/-- Granule-channel side info with `big_values = 1`, Huffman table 1
selected for region 0, and window-switching region bounds (36, 576);
`part2_3_length = 2` so that `part3_bits = 2` with no scale factor bits. -/
def chC6 : GranuleChannel :=
  { part23Length := 2, bigValues := 1, globalGain := 0, scalefacCompress := 0,
    blockType := .long, subblockGain := [0, 0, 0], tableSelect := [1, 1, 1],
    region1Start := 36, region2Start := 576, preflag := false,
    scalefacScale := false, count1tableSelect := false }

/-- As `chC6` but with `big_values = 2`, so the big_values region holds two
codeword pairs. -/
def chC8 : GranuleChannel :=
  { chC6 with bigValues := 2 }

/-- The bitstream `0 1 0`: the codeword `01` (pair `(1, 0)`) followed by a
positive sign bit. -/
def c68bits : List Bool :=
  [false, true, false]

/-- A 576-sample buffer holding all ones. -/
def bufOnes : List Int :=
  List.replicate 576 1

/-! ## Theorems -/

theorem exceptBind_ok {ε α β : Type} {x : Except ε α} {f : α → Except ε β}
    {b : β} (h : x.bind f = .ok b) : ∃ a, x = .ok a ∧ f a = .ok b := by
  cases x with
  | error e => simp [Except.bind] at h
  | ok a => exact ⟨a, rfl, h⟩

theorem bind_ok_eq {ε α β : Type} (a : α) (f : α → Except ε β) :
    (Except.ok a : Except ε α) >>= f = f a := rfl

theorem getD_set_self {α : Type} (l : List α) (i : Nat) (v d : α)
    (h : i < l.length) : (l.set i v).getD i d = v := by
  induction l generalizing i with
  | nil => simp at h
  | cons a l ih =>
    cases i with
    | zero => rfl
    | succ i => exact ih i (by simpa using h)

theorem getD_set_ne {α : Type} (l : List α) {i j : Nat} (v : α) (d : α)
    (h : i ≠ j) : (l.set i v).getD j d = l.getD j d := by
  induction l generalizing i j with
  | nil => rfl
  | cons a l ih =>
    cases i with
    | zero => cases j with
      | zero => exact absurd rfl h
      | succ j => rfl
    | succ i =>
      cases j with
      | zero => rfl
      | succ j => exact ih (fun he => h (by omega))

theorem getD_take {α : Type} (l : List α) (n j : Nat) (d : α) (h : j < n) :
    (l.take n).getD j d = l.getD j d := by
  induction l generalizing n j with
  | nil => simp
  | cons a l ih =>
    cases n with
    | zero => omega
    | succ n =>
      cases j with
      | zero => rfl
      | succ j => exact ih n j (by omega)

theorem getD_drop {α : Type} (l : List α) (n j : Nat) (d : α) :
    (l.drop n).getD j d = l.getD (n + j) d := by
  induction l generalizing n with
  | nil => simp
  | cons a l ih =>
    cases n with
    | zero => simp
    | succ n =>
      simp only [List.drop_succ_cons]
      rw [ih n, show n + 1 + j = (n + j) + 1 from by omega]
      simp [List.getD]

theorem getD_append_left {α : Type} (l₁ l₂ : List α) {j : Nat} (d : α)
    (h : j < l₁.length) : (l₁ ++ l₂).getD j d = l₁.getD j d := by
  induction l₁ generalizing j with
  | nil => simp at h
  | cons a l ih =>
    cases j with
    | zero => rfl
    | succ j => exact ih (by simpa using h)

theorem getD_append_right {α : Type} (l₁ l₂ : List α) (j : Nat) (d : α) :
    (l₁ ++ l₂).getD (l₁.length + j) d = l₂.getD j d := by
  induction l₁ with
  | nil => simp
  | cons a l ih =>
    simp only [List.cons_append, List.length_cons]
    rw [show l.length + 1 + j = (l.length + j) + 1 from by omega]
    simpa [List.getD] using ih

theorem getD_replicate_self {α : Type} (d : α) : ∀ (m k : Nat),
    (List.replicate m d).getD k d = d := by
  intro m
  induction m with
  | zero => intro k; cases k <;> rfl
  | succ m ih =>
    intro k
    cases k with
    | zero => rfl
    | succ k =>
      rw [List.replicate_succ, List.getD_cons_succ]
      exact ih k

theorem getD_append_right_sub {α : Type} (l₁ l₂ : List α) (j : Nat) (d : α)
    (h : l₁.length ≤ j) : (l₁ ++ l₂).getD j d = l₂.getD (j - l₁.length) d := by
  have hx := getD_append_right l₁ l₂ (j - l₁.length) d
  rw [show l₁.length + (j - l₁.length) = j from by omega] at hx
  exact hx

theorem ext_of_getD {α : Type} (l₁ l₂ : List α) (d : α)
    (hlen : l₁.length = l₂.length)
    (h : ∀ j, j < l₁.length → l₁.getD j d = l₂.getD j d) : l₁ = l₂ := by
  induction l₁ generalizing l₂ with
  | nil => cases l₂ with
    | nil => rfl
    | cons b l => simp at hlen
  | cons a l ih =>
    cases l₂ with
    | nil => simp at hlen
    | cons b l₂ =>
      have h0 := h 0 (by simp)
      simp only [List.getD] at h0
      refine congrArg₂ _ (by simpa using h0) ?_
      exact ih l₂ (by simpa using hlen)
        (fun j hj => by simpa using h (j + 1) (by simpa using hj))

/-- C7 counterexample: the 24 kHz row (sample-rate index 4) of
`SCALE_FACTOR_LONG_BANDS` holds 332, not 330, at the entry between 278 and
394; 330 does not occur in that row at all (330 is an entry of the 48 kHz
row). -/
theorem c7_table_entry_is_332_not_330 :
    (scaleFactorLongBands.getD 4 []).getD 18 0 = 332 ∧
    ¬ (330 ∈ scaleFactorLongBands.getD 4 []) := by
  decide

/-- C7 amended: in the 24 kHz row of `SCALE_FACTOR_LONG_BANDS`, the entry
between 278 and 394 is 332 (the value the ISO specification gives); only a
source comment speculates about 330. -/
theorem c7_amended_24khz_entry :
    (scaleFactorLongBands.getD 4 []).getD 17 0 = 278 ∧
    (scaleFactorLongBands.getD 4 []).getD 18 0 = 332 ∧
    (scaleFactorLongBands.getD 4 []).getD 19 0 = 394 := by
  decide

/-- C2: evaluating `read_frame_header` on the header word `0xFFFD4050`
(MPEG1 Layer II, joint stereo, mode-extension bits `0b01`) produces the
intensity bound 4, i.e. `4 * mode_ext`, not the claimed
`4 * (mode_ext + 1) = 8`: the source expression
`(1 + (header & 0x30) >> 4) << 2` groups as
`((1 + (header & 0x30)) >> 4) << 2` under Rust precedence. -/
theorem c2_intensity_bound_is_4_times_mode_ext :
    (parseFrameHeader 0xFFFD4050 0).map (fun fh => fh.channels)
      = .ok (Channels.jointStereo (Mode.intensity 4)) ∧
    (0xFFFD4050 >>> 4) &&& 0x3 = 1 ∧ (4 : Nat) ≠ 4 * (1 + 1) := by
  decide

/-- C1: parsing the window-switching side info of an MPEG2 granule channel
with `block_type = 0b10` (Short, not mixed) assigns `region1_start = 54`,
not the claimed 36: the source compares `block_type_enc` against `0b11`
(End) where its own comment says Short. -/
theorem c1_mpeg2_short_region1_start_is_54 :
    (readGranuleChannelSideInfoL3 hdrMpeg2 c1bits).map
      (fun p => (p.1.blockType, p.1.region1Start, p.1.region2Start))
      = .ok (BlockType.short false, 54, 576) ∧ (54 : Nat) ≠ 36 := by
  decide

theorem foldl_negAt_count (L : List Nat) :
    ∀ (s : Nat → Int) (j : Nat),
      L.foldl negAt s j = if L.count j % 2 = 1 then -s j else s j := by
  induction L with
  | nil => intro s j; simp
  | cons a L ih =>
    intro s j
    rw [List.foldl_cons, ih]
    by_cases hja : j = a
    · subst hja
      rw [List.count_cons_self]
      by_cases hodd : L.count j % 2 = 1
      · rw [if_pos hodd, if_neg (by omega)]
        simp [negAt]
      · rw [if_neg hodd, if_pos (by omega)]
        simp [negAt]
    · rw [List.count_cons_of_ne hja]
      by_cases hodd : L.count j % 2 = 1
      · rw [if_pos hodd, if_pos hodd]
        simp [negAt, hja]
      · rw [if_neg hodd, if_neg hodd]
        simp [negAt, hja]

theorem freqInvIndices_count_parity :
    ∀ j < 576, (freqInvIndices.count j % 2 = 1 ↔
      (j / 18 % 2 = 1 ∧ j % 18 % 2 = 1)) := by
  decide

theorem freqInvIndices_all_lt : ∀ j ∈ freqInvIndices, j < 576 := by
  decide

/-- C10: `l3_frequency_inversion` negates exactly the samples whose position
has an odd sub-band index (`j / 18` odd) and an odd in-sub-band index
(`j % 18` odd), leaves every other sample unchanged, and applying it twice
is the identity. -/
theorem c10_frequency_inversion_spec (s : Nat → Int) :
    (∀ j, l3FrequencyInversion s j =
      if j < 576 ∧ j / 18 % 2 = 1 ∧ j % 18 % 2 = 1 then -s j else s j) ∧
    (∀ j, l3FrequencyInversion (l3FrequencyInversion s) j = s j) := by
  constructor
  · intro j
    rw [l3FrequencyInversion, foldl_negAt_count]
    by_cases hj : j < 576
    · rcases freqInvIndices_count_parity j hj with ⟨h1, h2⟩
      by_cases hc : freqInvIndices.count j % 2 = 1
      · rw [if_pos hc, if_pos ⟨hj, h1 hc⟩]
      · rw [if_neg hc, if_neg (fun hcond => hc (h2 ⟨hcond.2.1, hcond.2.2⟩))]
    · have hz : freqInvIndices.count j = 0 :=
        List.count_eq_zero.mpr (fun hm => hj (freqInvIndices_all_lt j hm))
      rw [hz]
      simp [hj]
  · intro j
    rw [l3FrequencyInversion, l3FrequencyInversion, foldl_negAt_count,
        foldl_negAt_count]
    by_cases hc : freqInvIndices.count j % 2 = 1
    · simp [hc]
    · simp [hc]

theorem copyDown_length (prev : Nat) : ∀ (cnt i : Nat) (buf : List Nat),
    (copyDown prev i cnt buf).length = buf.length := by
  intro cnt
  induction cnt with
  | zero => intro i buf; simp [copyDown]
  | succ cnt ih => intro i buf; simp [copyDown, ih]

theorem copyDown_getD_lt (prev : Nat) : ∀ (cnt i : Nat) (buf : List Nat)
    (j : Nat), j < i → (copyDown prev i cnt buf).getD j 0 = buf.getD j 0 := by
  intro cnt
  induction cnt with
  | zero => intro i buf j _; simp [copyDown]
  | succ cnt ih =>
    intro i buf j hj
    simp only [copyDown]
    rw [ih (i + 1) _ j (by omega)]
    exact getD_set_ne buf _ _ (by omega)

theorem copyDown_getD (prev : Nat) : ∀ (cnt i : Nat) (buf : List Nat)
    (k : Nat), k < cnt → i + cnt ≤ buf.length →
    (copyDown prev i cnt buf).getD (i + k) 0 = buf.getD (prev + i + k) 0 := by
  intro cnt
  induction cnt with
  | zero => intro i buf k hk _; omega
  | succ cnt ih =>
    intro i buf k hk hlen
    simp only [copyDown]
    cases k with
    | zero =>
      rw [copyDown_getD_lt prev cnt (i + 1) _ (i + 0) (by omega)]
      rw [show i + 0 = i from rfl, getD_set_self buf i _ 0 (by omega)]
      rfl
    | succ k =>
      rw [show i + (k + 1) = (i + 1) + k from by omega]
      rw [ih (i + 1) _ k (by omega) (by rw [List.length_set]; omega)]
      rw [getD_set_ne buf _ _ (by omega : i ≠ prev + (i + 1) + k)]
      rw [show prev + (i + 1) + k = prev + i + (k + 1) from by omega]

theorem take_length_eq {α : Type} : ∀ (l : List α) (n : Nat),
    n ≤ l.length → (l.take n).length = n := by
  intro l
  induction l with
  | nil => intro n h; simp at h; simp [h]
  | cons a l ih =>
    intro n h
    cases n with
    | zero => rfl
    | succ n => simpa using ih n (by simpa using h)

theorem take_length_le {α : Type} : ∀ (l : List α) (n : Nat),
    (l.take n).length ≤ n := by
  intro l
  induction l with
  | nil => intro n; simp
  | cons a l ih =>
    intro n
    cases n with
    | zero => simp
    | succ n => simp [ih n]

/-- C4: `BitResevoir::fill` returns the decode error exactly when
`main_data_begin` exceeds the current valid length; on success the new valid
length is `main_data_begin + main_data_size` and the first `main_data_begin`
bytes of the buffer are the last `main_data_begin` bytes of the pre-fill
valid contents.  The hypothesis is the reservoir invariant (the valid length
never exceeds the buffer size). -/
theorem c4_resevoir_fill_spec (rsv : BitResevoir) (reader : List Nat)
    (mdb mds : Nat) (hinv : rsv.len ≤ rsv.buf.length) :
    ((rsv.fill reader mdb mds = .error .decodeErr) ↔ mdb > rsv.len) ∧
    (∀ rsv2, rsv.fill reader mdb mds = .ok rsv2 →
      rsv2.len = mdb + mds ∧
      rsv2.buf.take mdb = (rsv.buf.take rsv.len).drop (rsv.len - mdb)) := by
  constructor
  · by_cases h1 : mdb > rsv.len
    · simp [BitResevoir.fill, h1]
    · simp only [BitResevoir.fill, if_neg h1]
      constructor
      · intro h
        split_ifs at h <;> simp_all
      · intro h
        exact absurd h h1
  · intro rsv2 hok
    simp only [BitResevoir.fill] at hok
    split_ifs at hok with h1 h2 h3
    have hrsv2 : rsv2 =
      { buf := writeBytesAt (copyDown (rsv.len - mdb) 0 mdb rsv.buf) mdb
                 (reader.take mds),
        len := mdb + mds } := by
      injection hok with h
      exact h.symm
    subst hrsv2
    have hmdb : mdb ≤ rsv.len := by omega
    have hlen1 : (copyDown (rsv.len - mdb) 0 mdb rsv.buf).length
        = rsv.buf.length := copyDown_length _ _ _ _
    refine ⟨rfl, ?_⟩
    have htake : (writeBytesAt (copyDown (rsv.len - mdb) 0 mdb rsv.buf) mdb
        (reader.take mds)).take mdb
        = (copyDown (rsv.len - mdb) 0 mdb rsv.buf).take mdb := by
      unfold writeBytesAt
      have hl1 : ((copyDown (rsv.len - mdb) 0 mdb rsv.buf).take mdb).length = mdb :=
        take_length_eq _ mdb (by omega)
      rw [List.append_assoc]
      exact List.take_left' hl1
    rw [htake]
    apply ext_of_getD _ _ 0
    · rw [take_length_eq _ _ (by omega : mdb ≤ (copyDown (rsv.len - mdb) 0 mdb rsv.buf).length),
          List.length_drop,
          take_length_eq _ _ (by omega : rsv.len ≤ rsv.buf.length)]
      omega
    · intro j hj
      have hjmdb : j < mdb := by
        have hle := take_length_le (copyDown (rsv.len - mdb) 0 mdb rsv.buf) mdb
        omega
      rw [getD_take _ _ _ _ hjmdb]
      have hc := copyDown_getD (rsv.len - mdb) mdb 0 rsv.buf j hjmdb (by omega)
      rw [Nat.zero_add, Nat.add_zero] at hc
      rw [hc, getD_drop]
      rw [getD_take _ _ _ _ (by omega : rsv.len - mdb + j < rsv.len)]

/-- C4 witness: a concrete successful fill (4 valid bytes `[1,2,3,4]`,
`main_data_begin = 2`, one byte `9` read from the source). -/
theorem c4_resevoir_fill_spec_witness :
    (BitResevoir.mk [3, 4, 9, 4] 3).len = 2 + 1 ∧
    (BitResevoir.mk [3, 4, 9, 4] 3).buf.take 2 =
      ((BitResevoir.mk [1, 2, 3, 4] 4).buf.take
        (BitResevoir.mk [1, 2, 3, 4] 4).len).drop
        ((BitResevoir.mk [1, 2, 3, 4] 4).len - 2) :=
  (c4_resevoir_fill_spec (BitResevoir.mk [1, 2, 3, 4] 4) [9] 2 1
    (by decide)).2 (BitResevoir.mk [3, 4, 9, 4] 3) (by decide)

theorem parseBitrate_ge (hw : Nat) (v : MpegVersion) (l : MpegLayer) (b : Nat)
    (h : parseBitrate hw v l = .ok b) : 8000 ≤ b := by
  have hand : hw &&& 0xf000 ≤ 0xf000 := Nat.and_le_right
  have hsh : (hw &&& 0xf000) >>> 12 ≤ 15 := by
    rw [Nat.shiftRight_eq_div_pow]
    have hd := Nat.div_le_div_right (c := 2 ^ 12) hand
    omega
  have hb1 : ∀ i < 15, i ≠ 0 → 8000 ≤ bitRatesMpeg1L1.getD i 0 := by decide
  have hb2 : ∀ i < 15, i ≠ 0 → 8000 ≤ bitRatesMpeg1L2.getD i 0 := by decide
  have hb3 : ∀ i < 15, i ≠ 0 → 8000 ≤ bitRatesMpeg1L3.getD i 0 := by decide
  have hb4 : ∀ i < 15, i ≠ 0 → 8000 ≤ bitRatesMpeg2L1.getD i 0 := by decide
  have hb5 : ∀ i < 15, i ≠ 0 → 8000 ≤ bitRatesMpeg2L23.getD i 0 := by decide
  simp only [parseBitrate] at h
  by_cases h0 : (hw &&& 0xf000) >>> 12 = 0
  · rw [if_pos h0] at h
    exact absurd h (by simp)
  rw [if_neg h0] at h
  by_cases h15 : (hw &&& 0xf000) >>> 12 = 15
  · rw [if_pos h15] at h
    exact absurd h (by simp)
  rw [if_neg h15] at h
  have hlt : (hw &&& 0xf000) >>> 12 < 15 := by omega
  cases v <;> cases l <;>
    (injection h with h; subst h) <;>
    first
      | exact hb1 _ hlt h0
      | exact hb2 _ hlt h0
      | exact hb3 _ hlt h0
      | exact hb4 _ hlt h0
      | exact hb5 _ hlt h0

theorem parseSampleRate_bounds (hw : Nat) (v : MpegVersion) (sr idx : Nat)
    (h : parseSampleRate hw v = .ok (sr, idx)) : 0 < sr ∧ sr ≤ 48000 := by
  unfold parseSampleRate at h
  split at h <;> simp_all <;> omega

/-- C3: every successfully parsed frame header has
`frame_size = floor(coeff * bitrate / sample_rate) + padding - (2 if CRC) - 4`
with `coeff = 144` for MPEG1 and `72` otherwise; in particular the header
word `0xFFFB90C0` (MPEG1 Layer III, 128 kbps, 44.1 kHz, no padding, no CRC)
yields `frame_size = 413`. -/
theorem c3_frame_size_formula :
    (∀ (hw crcW : Nat) (fh : FrameHeader), parseFrameHeader hw crcW = .ok fh →
      (fh.frameSize : Int) =
        ((if fh.version = MpegVersion.mpeg1 then 144 else 72 : Nat) : Int) *
          fh.bitrate / fh.sampleRate
        + (if fh.hasPadding then 1 else 0)
        - (if fh.crc.isSome then 2 else 0) - 4) ∧
    (parseFrameHeader 0xFFFB90C0 0).map FrameHeader.frameSize = .ok 413 := by
  constructor
  · intro hw crcW fh h
    unfold parseFrameHeader at h
    obtain ⟨ver, hver, h⟩ := exceptBind_ok h
    obtain ⟨lay, hlay, h⟩ := exceptBind_ok h
    obtain ⟨br, hbr, h⟩ := exceptBind_ok h
    obtain ⟨p, hp, h⟩ := exceptBind_ok h
    obtain ⟨sr, idx⟩ := p
    obtain ⟨u, hu, h⟩ := exceptBind_ok h
    obtain ⟨em, hem, h⟩ := exceptBind_ok h
    injection h with h
    subst h
    dsimp only
    have hbge := parseBitrate_ge hw ver lay br hbr
    have hsr := parseSampleRate_bounds hw ver sr idx hp
    have hcoeff : 72 ≤ (if ver = MpegVersion.mpeg1 then (144 : Nat) else 72) := by
      split <;> omega
    have hA : 6 ≤ (if ver = MpegVersion.mpeg1 then (144 : Nat) else 72) * br / sr := by
      rw [Nat.le_div_iff_mul_le hsr.1]
      calc 6 * sr ≤ 6 * 48000 := Nat.mul_le_mul_left 6 hsr.2
        _ ≤ 72 * 8000 := by norm_num
        _ ≤ (if ver = MpegVersion.mpeg1 then (144 : Nat) else 72) * br :=
            Nat.mul_le_mul hcoeff hbge
    rw [← Nat.cast_mul, ← Int.natCast_div]
    by_cases hpad : (hw &&& 0x200 != 0) = true <;>
      by_cases hcrc : hw &&& 0x10000 = 0 <;>
        simp only [hpad, hcrc, if_true, if_false, Option.isSome_some,
          Option.isSome_none, Bool.false_eq_true, reduceIte] <;>
      omega
  · decide

/-- C3 witness: the frame-size formula instantiated at the concrete header
word `0xFFFB90C0`, whose parse succeeds with `hdr413`. -/
theorem c3_frame_size_formula_witness :
    (hdr413.frameSize : Int) =
      ((if hdr413.version = MpegVersion.mpeg1 then 144 else 72 : Nat) : Int) *
        hdr413.bitrate / hdr413.sampleRate
      + (if hdr413.hasPadding then 1 else 0)
      - (if hdr413.crc.isSome then 2 else 0) - 4 :=
  c3_frame_size_formula.1 0xFFFB90C0 0 hdr413 (by decide)

/-- C6: on the channel `chC6` (`big_values = 1`, Huffman table 1) with
`part3_bits = 2` and the bitstream `0 1 0`, the single big_values pair
consumes the 2-bit codeword `01` plus an unbudgeted sign bit, so after the
big_values loop `bits_read = 3 > part3_bits = 2` while `i = 2`; the count1
loop never runs and the overrun branch executes `i -= 4` with `i = 2`, an
underflowing usize subtraction (a panic in a debug build), not the claimed
normal return with `i ≥ 4`. -/
theorem c6_count1_overrun_underflows :
    l3ReadHuffmanSamples tablesC68 emptyHTable emptyHTable pow43Id chC6 2
      bufOnes c68bits = .error .fault := by
  decide

/-- C8: on the channel `chC8` (`big_values = 2`, Huffman table 1) with
`part3_bits = 2` and the bitstream `0 1 0`, the first big_values pair
consumes the 2-bit codeword `01` plus an unbudgeted sign bit, leaving
`bits_read = 3 > part3_bits = 2` with `i = 2` still inside the region, so
the second `read_huffman` call computes the u32 budget
`part3_bits - bits_read` with `bits_read > part3_bits`: the subtraction
underflows (panics in a debug build), contrary to the claim that
`bits_read ≤ part3_bits` holds at every call. -/
theorem c8_big_values_budget_underflows :
    l3ReadHuffmanSamples tablesC68 emptyHTable emptyHTable pow43Id chC8 2
      bufOnes c68bits = .error .fault := by
  decide

theorem setChecked_ok {buf : List Int} {i : Nat} {v : Int} {buf2 : List Int}
    (h : setChecked buf i v = .ok buf2) :
    i < buf.length ∧ buf2 = buf.set i v := by
  by_cases hlt : i < buf.length
  · unfold setChecked at h
    rw [if_pos hlt] at h
    injection h with h
    exact ⟨hlt, h.symm⟩
  · unfold setChecked at h
    rw [if_neg hlt] at h
    exact absurd h (by simp)

theorem bigSample_ok {pow43 : Nat → Int} {table : HTable} {v i : Nat}
    {buf : List Int} {bs : List Bool} {bitsRead : Nat}
    {out : List Int × List Bool × Nat}
    (h : bigSample pow43 table v i buf bs bitsRead = .ok out) :
    i < buf.length ∧ out.1.length = buf.length := by
  unfold bigSample at h
  by_cases hv : v > 0
  · rw [if_pos hv] at h
    obtain ⟨t1, _, h⟩ := exceptBind_ok h
    obtain ⟨v2, bs2, br2⟩ := t1
    obtain ⟨t2, _, h⟩ := exceptBind_ok h
    obtain ⟨sg, bs3⟩ := t2
    obtain ⟨b2, hb2, h⟩ := exceptBind_ok h
    obtain ⟨hi, hb⟩ := setChecked_ok hb2
    injection h with h
    subst h
    exact ⟨hi, by simp [hb]⟩
  · rw [if_neg hv] at h
    obtain ⟨b2, hb2, h⟩ := exceptBind_ok h
    obtain ⟨hi, hb⟩ := setChecked_ok hb2
    injection h with h
    subst h
    exact ⟨hi, by simp [hb]⟩

theorem count1Sample_ok {value mask i : Nat} {buf : List Int}
    {bs : List Bool} {bitsRead : Nat} {out : List Int × List Bool × Nat}
    (h : count1Sample value mask i buf bs bitsRead = .ok out) :
    i < buf.length ∧ out.1.length = buf.length := by
  unfold count1Sample at h
  by_cases hm : value &&& mask ≠ 0
  · rw [if_pos hm] at h
    obtain ⟨t, _, h⟩ := exceptBind_ok h
    obtain ⟨sg, bs2⟩ := t
    obtain ⟨b2, hb2, h⟩ := exceptBind_ok h
    obtain ⟨hi, hb⟩ := setChecked_ok hb2
    injection h with h
    subst h
    exact ⟨hi, by simp [hb]⟩
  · rw [if_neg hm] at h
    obtain ⟨b2, hb2, h⟩ := exceptBind_ok h
    obtain ⟨hi, hb⟩ := setChecked_ok hb2
    injection h with h
    subst h
    exact ⟨hi, by simp [hb]⟩

theorem zeroPairLoop_ok {regionEnd : Nat} : ∀ (fuel : Nat) (st st2 : HuffSt),
    zeroPairLoop regionEnd fuel st = .ok st2 →
    st.buf.length = 576 → st.i ≤ 576 →
    st2.buf.length = 576 ∧ st2.i ≤ 576 := by
  intro fuel
  induction fuel with
  | zero =>
    intro st st2 h _ _
    exact absurd h (by simp [zeroPairLoop])
  | succ fuel ih =>
    intro st st2 h hlen hi
    rw [zeroPairLoop] at h
    by_cases hc : st.i < regionEnd
    · rw [if_pos hc] at h
      obtain ⟨b1, hb1, h⟩ := exceptBind_ok h
      obtain ⟨b2, hb2, h⟩ := exceptBind_ok h
      obtain ⟨hi1, he1⟩ := setChecked_ok hb1
      obtain ⟨hi2, he2⟩ := setChecked_ok hb2
      subst he1
      subst he2
      refine ih _ _ h (by simp [hlen]) ?_
      show st.i + 2 ≤ 576
      simp only [List.length_set] at hi2
      omega
    · rw [if_neg hc] at h
      injection h with h
      subst h
      exact ⟨hlen, hi⟩

theorem decodePairLoop_ok {pow43 : Nat → Int} {table : HTable}
    {part3Bits regionEnd : Nat} : ∀ (fuel : Nat) (st st2 : HuffSt),
    decodePairLoop pow43 table part3Bits regionEnd fuel st = .ok st2 →
    st.buf.length = 576 → st.i ≤ 576 →
    st2.buf.length = 576 ∧ st2.i ≤ 576 := by
  intro fuel
  induction fuel with
  | zero =>
    intro st st2 h _ _
    exact absurd h (by simp [decodePairLoop])
  | succ fuel ih =>
    intro st st2 h hlen hi
    rw [decodePairLoop] at h
    by_cases hc : st.i < regionEnd
    · rw [if_pos hc] at h
      obtain ⟨bgt, _, h⟩ := exceptBind_ok h
      obtain ⟨thv, _, h⟩ := exceptBind_ok h
      obtain ⟨value, codeLen, bs⟩ := thv
      obtain ⟨o1, ho1, h⟩ := exceptBind_ok h
      obtain ⟨buf1, bs1, br1⟩ := o1
      obtain ⟨o2, ho2, h⟩ := exceptBind_ok h
      obtain ⟨buf2x, bs2, br2⟩ := o2
      obtain ⟨hx1, hx2⟩ := bigSample_ok ho1
      obtain ⟨hy1, hy2⟩ := bigSample_ok ho2
      dsimp only at hx2 hy2 hy1
      refine ih _ _ h (by rw [hy2, hx2, hlen]) ?_
      show st.i + 2 ≤ 576
      rw [hx2, hlen] at hy1
      omega
    · rw [if_neg hc] at h
      injection h with h
      subst h
      exact ⟨hlen, hi⟩

theorem count1Loop_ok {table : HTable} {part3Bits : Nat} :
    ∀ (fuel : Nat) (st st2 : HuffSt),
    count1Loop table part3Bits fuel st = .ok st2 →
    st.buf.length = 576 → st.i ≤ 576 →
    st2.buf.length = 576 ∧ st2.i ≤ 576 := by
  intro fuel
  induction fuel with
  | zero =>
    intro st st2 h _ _
    exact absurd h (by simp [count1Loop])
  | succ fuel ih =>
    intro st st2 h hlen hi
    rw [count1Loop] at h
    by_cases hc : st.i ≤ 572 ∧ st.bitsRead < part3Bits
    · rw [if_pos hc] at h
      obtain ⟨thv, _, h⟩ := exceptBind_ok h
      obtain ⟨value, codeLen, bs⟩ := thv
      obtain ⟨o1, ho1, h⟩ := exceptBind_ok h
      obtain ⟨buf1, bs1, br1⟩ := o1
      obtain ⟨o2, ho2, h⟩ := exceptBind_ok h
      obtain ⟨buf2x, bs2, br2⟩ := o2
      obtain ⟨o3, ho3, h⟩ := exceptBind_ok h
      obtain ⟨buf3, bs3, br3⟩ := o3
      obtain ⟨o4, ho4, h⟩ := exceptBind_ok h
      obtain ⟨buf4, bs4, br4⟩ := o4
      obtain ⟨_, hl1⟩ := count1Sample_ok ho1
      obtain ⟨_, hl2⟩ := count1Sample_ok ho2
      obtain ⟨_, hl3⟩ := count1Sample_ok ho3
      obtain ⟨_, hl4⟩ := count1Sample_ok ho4
      dsimp only at hl1 hl2 hl3 hl4
      refine ih _ _ h (by rw [hl4, hl3, hl2, hl1, hlen]) ?_
      show st.i + 4 ≤ 576
      omega
    · rw [if_neg hc] at h
      injection h with h
      subst h
      exact ⟨hlen, hi⟩

theorem regionPass_ok {tables : Nat → HTable} {pow43 : Nat → Int}
    {part3Bits : Nat} {channel : GranuleChannel} {regionIdx regionEnd : Nat}
    {st st2 : HuffSt}
    (h : regionPass tables pow43 part3Bits channel regionIdx regionEnd st
      = .ok st2)
    (hlen : st.buf.length = 576) (hi : st.i ≤ 576) :
    st2.buf.length = 576 ∧ st2.i ≤ 576 := by
  unfold regionPass at h
  by_cases he :
      (tables (channel.tableSelect.getD regionIdx 0)).isEmpty = true
  · rw [if_pos he] at h
    exact zeroPairLoop_ok _ _ _ h hlen hi
  · rw [if_neg he] at h
    exact decodePairLoop_ok _ _ _ h hlen hi

theorem zeroQuadLoop_ok : ∀ (fuel i : Nat) (buf buf2 : List Int),
    zeroQuadLoop fuel i buf = .ok buf2 →
    buf2.length = buf.length ∧
    (∀ k, k < i → buf2.getD k 0 = buf.getD k 0) ∧
    (∀ k, i ≤ k → k < 576 → buf2.getD k 0 = 0) := by
  intro fuel
  induction fuel with
  | zero =>
    intro i buf buf2 h
    exact absurd h (by simp [zeroQuadLoop])
  | succ fuel ih =>
    intro i buf buf2 h
    rw [zeroQuadLoop] at h
    by_cases hc : i < 576
    · rw [if_pos hc] at h
      obtain ⟨b1, hb1, h⟩ := exceptBind_ok h
      obtain ⟨b2, hb2, h⟩ := exceptBind_ok h
      obtain ⟨b3, hb3, h⟩ := exceptBind_ok h
      obtain ⟨b4, hb4, h⟩ := exceptBind_ok h
      obtain ⟨hi1, he1⟩ := setChecked_ok hb1
      obtain ⟨hi2, he2⟩ := setChecked_ok hb2
      obtain ⟨hi3, he3⟩ := setChecked_ok hb3
      obtain ⟨hi4, he4⟩ := setChecked_ok hb4
      subst he1 he2 he3 he4
      simp only [List.length_set] at hi2 hi3 hi4
      obtain ⟨hL, hlow, hzero⟩ := ih (i + 4) _ buf2 h
      refine ⟨by simp [hL], ?_, ?_⟩
      · intro k hk
        rw [hlow k (by omega), getD_set_ne _ _ _ (by omega),
            getD_set_ne _ _ _ (by omega), getD_set_ne _ _ _ (by omega),
            getD_set_ne _ _ _ (by omega)]
      · intro k hk1 hk2
        by_cases hk4 : i + 4 ≤ k
        · exact hzero k hk4 hk2
        · rw [hlow k (by omega)]
          have hcase : k = i ∨ k = i + 1 ∨ k = i + 2 ∨ k = i + 3 := by omega
          rcases hcase with hk | hk | hk | hk <;> subst hk
          · rw [getD_set_ne _ _ _ (by omega), getD_set_ne _ _ _ (by omega),
                getD_set_ne _ _ _ (by omega),
                getD_set_self _ _ _ _ (by omega)]
          · rw [getD_set_ne _ _ _ (by omega), getD_set_ne _ _ _ (by omega),
                getD_set_self _ _ _ _ (by simp [List.length_set]; omega)]
          · rw [getD_set_ne _ _ _ (by omega),
                getD_set_self _ _ _ _ (by simp [List.length_set]; omega)]
          · rw [getD_set_self _ _ _ _ (by simp [List.length_set]; omega)]
    · rw [if_neg hc] at h
      injection h with h
      subst h
      exact ⟨rfl, fun k _ => rfl, fun k hk1 hk2 => by omega⟩

theorem zeroQuadLoop_fill : ∀ (fuel i : Nat) (buf : List Int),
    buf.length = 576 → i % 4 = 0 → i ≤ 576 → 580 ≤ i + 4 * fuel →
    zeroQuadLoop fuel i buf =
      .ok (buf.take i ++ List.replicate (576 - i) 0) := by
  intro fuel
  induction fuel with
  | zero =>
    intro i buf hlen hmod hle hfuel
    omega
  | succ fuel ih =>
    intro i buf hlen hmod hle hfuel
    rw [zeroQuadLoop]
    by_cases hc : i < 576
    · rw [if_pos hc]
      have hi3 : i + 3 < 576 := by omega
      have e1 : setChecked buf i 0 = .ok (buf.set i 0) := by
        rw [setChecked, if_pos (show i < buf.length by omega)]
      have e2 : setChecked (buf.set i 0) (i + 1) 0 =
          .ok ((buf.set i 0).set (i + 1) 0) := by
        rw [setChecked, if_pos (show i + 1 < (buf.set i 0).length by
          rw [List.length_set]; omega)]
      have e3 : setChecked ((buf.set i 0).set (i + 1) 0) (i + 2) 0 =
          .ok (((buf.set i 0).set (i + 1) 0).set (i + 2) 0) := by
        rw [setChecked, if_pos
          (show i + 2 < ((buf.set i 0).set (i + 1) 0).length by
            rw [List.length_set, List.length_set]; omega)]
      have e4 : setChecked (((buf.set i 0).set (i + 1) 0).set (i + 2) 0)
          (i + 3) 0 =
          .ok ((((buf.set i 0).set (i + 1) 0).set (i + 2) 0).set
            (i + 3) 0) := by
        rw [setChecked, if_pos
          (show i + 3 <
              (((buf.set i 0).set (i + 1) 0).set (i + 2) 0).length by
            rw [List.length_set, List.length_set, List.length_set]; omega)]
      simp only [e1, e2, e3, e4, bind_ok_eq]
      have hB4 : ((((buf.set i 0).set (i + 1) 0).set (i + 2) 0).set
          (i + 3) 0).length = 576 := by
        rw [List.length_set, List.length_set, List.length_set,
          List.length_set]
        omega
      rw [ih (i + 4)
        ((((buf.set i 0).set (i + 1) 0).set (i + 2) 0).set (i + 3) 0)
        hB4 (by omega) (by omega) (by omega)]
      refine congrArg Except.ok ?_
      have hT1 : (((((buf.set i 0).set (i + 1) 0).set (i + 2) 0).set
          (i + 3) 0).take (i + 4)).length = i + 4 :=
        take_length_eq _ _ (by omega)
      have hT2 : (buf.take i).length = i := take_length_eq _ _ (by omega)
      refine ext_of_getD _ _ 0 ?_ ?_
      · rw [List.length_append, List.length_append, hT1, hT2,
          List.length_replicate, List.length_replicate]
        omega
      · intro j hj
        rw [List.length_append, hT1, List.length_replicate] at hj
        by_cases hji : j < i
        · rw [getD_append_left _ _ _ (by omega),
              getD_append_left _ _ _ (by omega),
              getD_take _ _ _ _ (by omega), getD_take _ _ _ _ (by omega),
              getD_set_ne _ _ _ (by omega), getD_set_ne _ _ _ (by omega),
              getD_set_ne _ _ _ (by omega), getD_set_ne _ _ _ (by omega)]
        · have hRHS : (buf.take i ++ List.replicate (576 - i) (0 : Int)).getD
              j 0 = 0 := by
            rw [getD_append_right_sub _ _ _ _ (by omega), hT2,
              getD_replicate_self]
          rw [hRHS]
          by_cases hj4 : j < i + 4
          · rw [getD_append_left _ _ _ (by omega),
                getD_take _ _ _ _ (by omega)]
            have hcase : j = i ∨ j = i + 1 ∨ j = i + 2 ∨ j = i + 3 := by
              omega
            rcases hcase with h | h | h | h <;> subst h
            · rw [getD_set_ne _ _ _ (by omega), getD_set_ne _ _ _ (by omega),
                  getD_set_ne _ _ _ (by omega),
                  getD_set_self _ _ _ _ (by omega)]
            · rw [getD_set_ne _ _ _ (by omega), getD_set_ne _ _ _ (by omega),
                  getD_set_self _ _ _ _ (by simp [List.length_set]; omega)]
            · rw [getD_set_ne _ _ _ (by omega),
                  getD_set_self _ _ _ _ (by simp [List.length_set]; omega)]
            · rw [getD_set_self _ _ _ _ (by simp [List.length_set]; omega)]
          · rw [getD_append_right_sub _ _ _ _ (by omega),
              getD_replicate_self]
    · rw [if_neg hc]
      have hi : i = 576 := by omega
      subst hi
      rw [Nat.sub_self, List.replicate_zero, List.append_nil,
        List.take_of_length_le (by omega)]

theorem zeroTailLoop_ok : ∀ (fuel j : Nat) (buf buf2 : List Int),
    zeroTailLoop fuel j buf = .ok buf2 →
    buf2.length = buf.length ∧
    (∀ k, k < j → buf2.getD k 0 = buf.getD k 0) ∧
    (∀ k, j ≤ k → k < 576 → buf2.getD k 0 = 0) := by
  intro fuel
  induction fuel with
  | zero =>
    intro j buf buf2 h
    exact absurd h (by simp [zeroTailLoop])
  | succ fuel ih =>
    intro j buf buf2 h
    rw [zeroTailLoop] at h
    by_cases hc : j < 576
    · rw [if_pos hc] at h
      obtain ⟨b1, hb1, h⟩ := exceptBind_ok h
      obtain ⟨b2, hb2, h⟩ := exceptBind_ok h
      obtain ⟨hi1, he1⟩ := setChecked_ok hb1
      obtain ⟨hi2, he2⟩ := setChecked_ok hb2
      subst he1 he2
      simp only [List.length_set] at hi2
      obtain ⟨hL, hlow, hzero⟩ := ih (j + 2) _ buf2 h
      refine ⟨by simp [hL], ?_, ?_⟩
      · intro k hk
        rw [hlow k (by omega), getD_set_ne _ _ _ (by omega),
            getD_set_ne _ _ _ (by omega)]
      · intro k hk1 hk2
        by_cases hk4 : j + 2 ≤ k
        · exact hzero k hk4 hk2
        · rw [hlow k (by omega)]
          have hcase : k = j ∨ k = j + 1 := by omega
          rcases hcase with hk | hk <;> subst hk
          · rw [getD_set_ne _ _ _ (by omega),
                getD_set_self _ _ _ _ (by omega)]
          · rw [getD_set_self _ _ _ _ (by simp [List.length_set]; omega)]
    · rw [if_neg hc] at h
      injection h with h
      subst h
      exact ⟨rfl, fun k _ => rfl, fun k hk1 hk2 => by omega⟩

/-- C5: whenever `l3_read_huffman_samples` returns `Ok(rzero)` on a
576-sample buffer, `rzero ≤ 576` and every sample at positions
`rzero..576` is zero; and when `part3_bits = 0`, `rzero = 0` and the whole
buffer is zero. -/
theorem c5_huffman_rzero_invariant (tables : Nat → HTable)
    (quadA quadB : HTable) (pow43 : Nat → Int) (channel : GranuleChannel)
    (part3Bits : Nat) (buf : List Int) (bs : List Bool) (rz : Nat)
    (buf2 : List Int) (hbuf : buf.length = 576)
    (h : l3ReadHuffmanSamples tables quadA quadB pow43 channel part3Bits buf
      bs = .ok (rz, buf2)) :
    rz ≤ 576 ∧ buf2.length = 576 ∧
    (∀ j, rz ≤ j → j < 576 → buf2.getD j 0 = 0) ∧
    (part3Bits = 0 → rz = 0 ∧ ∀ j, j < 576 → buf2.getD j 0 = 0) := by
  unfold l3ReadHuffmanSamples at h
  by_cases hp3 : part3Bits = 0
  · rw [if_pos hp3] at h
    obtain ⟨b1, hb1, h⟩ := exceptBind_ok h
    injection h with h
    injection h with hrz hbuf2
    subst hrz
    subst hbuf2
    obtain ⟨hL, _, hzero⟩ := zeroQuadLoop_ok 145 0 buf b1 hb1
    exact ⟨by omega, by omega, fun j _ hj => hzero j (by omega) hj,
      fun _ => ⟨rfl, fun j hj => hzero j (by omega) hj⟩⟩
  · rw [if_neg hp3] at h
    obtain ⟨st1, hst1, h⟩ := exceptBind_ok h
    obtain ⟨st2, hst2, h⟩ := exceptBind_ok h
    obtain ⟨st3, hst3, h⟩ := exceptBind_ok h
    obtain ⟨st4, hst4, h⟩ := exceptBind_ok h
    obtain ⟨st5, hst5, h⟩ := exceptBind_ok h
    obtain ⟨bz, hbz, h⟩ := exceptBind_ok h
    injection h with h
    injection h with hrz hbuf2
    subst hrz
    subst hbuf2
    obtain ⟨hL1, hi1⟩ := regionPass_ok hst1 (by exact hbuf)
      (by show (0 : Nat) ≤ 576; omega)
    obtain ⟨hL2, hi2⟩ := regionPass_ok hst2 hL1 hi1
    obtain ⟨hL3, hi3⟩ := regionPass_ok hst3 hL2 hi2
    obtain ⟨hL4, hi4⟩ := count1Loop_ok _ _ _ hst4 hL3 hi3
    have hst5P : st5.buf = st4.buf ∧ st5.i ≤ 576 := by
      by_cases ha : st4.bitsRead < part3Bits
      · rw [if_pos ha] at hst5
        obtain ⟨bsx, hbsx, hst5⟩ := exceptBind_ok hst5
        injection hst5 with hst5
        subst hst5
        exact ⟨rfl, hi4⟩
      · rw [if_neg ha] at hst5
        by_cases hb : st4.bitsRead > part3Bits
        · rw [if_pos hb] at hst5
          by_cases hc : st4.i < 4
          · rw [if_pos hc] at hst5
            exact absurd hst5 (by simp)
          · rw [if_neg hc] at hst5
            injection hst5 with hst5
            subst hst5
            refine ⟨rfl, ?_⟩
            show st4.i - 4 ≤ 576
            omega
        · rw [if_neg hb] at hst5
          injection hst5 with hst5
          subst hst5
          exact ⟨rfl, hi4⟩
    obtain ⟨hzL, hzlow, hzzero⟩ := zeroTailLoop_ok 289 st5.i st5.buf bz hbz
    refine ⟨hst5P.2, ?_, fun j hj1 hj2 => hzzero j hj1 hj2,
      fun hp => absurd hp hp3⟩
    rw [hzL, hst5P.1, hL4]

/-- C5 witness: the invariant instantiated on the `part3_bits = 0` path,
which zeroes the whole 576-sample buffer (here initially all ones) and
returns `rzero = 0`. -/
theorem c5_huffman_rzero_invariant_witness :
    (0 : Nat) ≤ 576 ∧ (List.replicate 576 (0 : Int)).length = 576 ∧
    (∀ j, (0 : Nat) ≤ j → j < 576 →
      (List.replicate 576 (0 : Int)).getD j 0 = 0) ∧
    ((0 : Nat) = 0 → (0 : Nat) = 0 ∧
      ∀ j, j < 576 → (List.replicate 576 (0 : Int)).getD j 0 = 0) :=
  c5_huffman_rzero_invariant tablesC68 emptyHTable emptyHTable pow43Id chC6 0
    bufOnes [] 0 (List.replicate 576 0) (by simp [bufOnes])
    (by
      rw [l3ReadHuffmanSamples, if_pos rfl,
        zeroQuadLoop_fill 145 0 bufOnes (by simp [bufOnes]) rfl (by omega)
          (by omega)]
      rfl)

theorem sfb_bands_mono : ∀ r < 9, ∀ a < 14, ∀ b < 14, a ≤ b →
    (scaleFactorShortBands.getD r []).getD a 0 ≤
      (scaleFactorShortBands.getD r []).getD b 0 := by
  decide

theorem sfb_bands_13 : ∀ r < 9,
    (scaleFactorShortBands.getD r []).getD 13 0 = 192 := by
  decide

theorem sfb_bands_len : ∀ r < 9,
    (scaleFactorShortBands.getD r []).length = 14 := by
  decide

theorem interleaveBand_length (buf : List Int) (i w : Nat) :
    (interleaveBand buf i w).length = 3 * w := by
  simp [interleaveBand]

theorem getD_map_range {α : Type} (g : Nat → α) (d : α) :
    ∀ (n j : Nat), j < n → ((List.range n).map g).getD j d = g j := by
  intro n
  induction n with
  | zero => intro j hj; omega
  | succ n ih =>
    intro j hj
    rw [List.range_succ, List.map_append]
    by_cases hjn : j < n
    · rw [getD_append_left _ _ _ (by simpa using hjn)]
      exact ih j hjn
    · have hje : j = n := by omega
      subst hje
      have hlen : ((List.range j).map g).length = j := by simp
      calc ((List.range j).map g ++ [g j]).getD j d
          = ((List.range j).map g ++ [g j]).getD
              (((List.range j).map g).length + 0) d := by
            rw [hlen, Nat.add_zero]
        _ = [g j].getD 0 d := getD_append_right _ _ _ _
        _ = g j := rfl

theorem sigma_lt (w q : Nat) (hq : q < 3 * w) : q % 3 * w + q / 3 < 3 * w := by
  have h2 : q / 3 < w := by omega
  have h3 : q % 3 = 0 ∨ q % 3 = 1 ∨ q % 3 = 2 := by omega
  rcases h3 with h | h | h <;> rw [h] <;> omega

theorem sigma_inj (w q1 q2 : Nat) (h1 : q1 < 3 * w) (h2 : q2 < 3 * w)
    (he : q1 % 3 * w + q1 / 3 = q2 % 3 * w + q2 / 3) : q1 = q2 := by
  have hd1 : q1 / 3 < w := by omega
  have hd2 : q2 / 3 < w := by omega
  have hm1 : q1 % 3 = 0 ∨ q1 % 3 = 1 ∨ q1 % 3 = 2 := by omega
  have hm2 : q2 % 3 = 0 ∨ q2 % 3 = 1 ∨ q2 % 3 = 2 := by omega
  rcases hm1 with h | h | h <;> rcases hm2 with g | g | g <;>
    rw [h, g] at he <;> omega

theorem sigma_surj (w x : Nat) (hx : x < 3 * w) :
    ∃ q, q < 3 * w ∧ q % 3 * w + q / 3 = x := by
  have hw : 0 < w := by omega
  have h1 : x % w < w := Nat.mod_lt _ hw
  have h2 : x / w < 3 := by
    by_contra hc
    push_neg at hc
    have h3 : 3 * w ≤ x / w * w := Nat.mul_le_mul_right w hc
    have h4 : x / w * w ≤ x := Nat.div_mul_le_self x w
    omega
  refine ⟨3 * (x % w) + x / w, by omega, ?_⟩
  have hmod : (3 * (x % w) + x / w) % 3 = x / w := by
    rw [Nat.mul_add_mod]
    exact Nat.mod_eq_of_lt h2
  have hdiv : (3 * (x % w) + x / w) / 3 = x % w := by
    rw [Nat.mul_add_div (by omega), Nat.div_eq_of_lt h2, Nat.add_zero]
  rw [hmod, hdiv, Nat.mul_comm (x / w) w]
  exact Nat.div_add_mod x w

theorem sigma_perm (w : Nat) :
    ((List.range (3 * w)).map (fun q => q % 3 * w + q / 3)).Perm
      (List.range (3 * w)) := by
  have hnd : ((List.range (3 * w)).map (fun q => q % 3 * w + q / 3)).Nodup := by
    refine List.Nodup.map_on ?_ (List.nodup_range ..)
    intro x hx y hy hxy
    exact sigma_inj w x y (List.mem_range.mp hx) (List.mem_range.mp hy) hxy
  refine (List.perm_ext_iff_of_nodup hnd (List.nodup_range ..)).mpr ?_
  intro a
  constructor
  · intro ha
    obtain ⟨q, hq, rfl⟩ := List.mem_map.mp ha
    exact List.mem_range.mpr (sigma_lt w q (List.mem_range.mp hq))
  · intro ha
    obtain ⟨q, hq1, hq2⟩ := sigma_surj w a (List.mem_range.mp ha)
    exact List.mem_map.mpr ⟨q, List.mem_range.mpr hq1, hq2⟩

theorem map_getD_range_eq (buf : List Int) (i n : Nat)
    (h : i + n ≤ buf.length) :
    (List.range n).map (fun t => buf.getD (i + t) 0) = (buf.drop i).take n := by
  apply ext_of_getD _ _ 0
  · rw [List.length_map, List.length_range,
        take_length_eq _ n (by rw [List.length_drop]; omega)]
  · intro j hj
    rw [List.length_map, List.length_range] at hj
    rw [getD_map_range _ _ _ _ hj, getD_take _ _ _ _ hj, getD_drop]

theorem interleave_perm (buf : List Int) (i w : Nat)
    (h : i + 3 * w ≤ buf.length) :
    (interleaveBand buf i w).Perm ((buf.drop i).take (3 * w)) := by
  have h1 : interleaveBand buf i w
      = ((List.range (3 * w)).map (fun q => q % 3 * w + q / 3)).map
          (fun t => buf.getD (i + t) 0) := by
    unfold interleaveBand
    rw [List.map_map]
    exact List.map_congr_left (fun q _ => by
      simp [Function.comp, Nat.add_assoc])
  rw [h1, ← map_getD_range_eq buf i (3 * w) h]
  exact (sigma_perm w).map _

theorem bandLoop_perm (bands : List Nat) (rzero : Nat) (buf : List Int)
    (hmono : ∀ a b, a ≤ b → b ≤ 13 → bands.getD a 0 ≤ bands.getD b 0)
    (h13 : bands.getD 13 0 = 192)
    (hrz : rzero ≤ 576) (hbuf : buf.length = 576) :
    ∀ (fuel sfb : Nat), sfb ≤ 13 →
    (bandLoop bands rzero buf fuel sfb).Perm
      ((buf.drop (3 * bands.getD sfb 0)).take
        ((bandLoop bands rzero buf fuel sfb).length)) ∧
    3 * bands.getD sfb 0 + (bandLoop bands rzero buf fuel sfb).length ≤ 576 := by
  intro fuel
  induction fuel with
  | zero =>
    intro sfb hsfb
    have hm := hmono sfb 13 hsfb (le_refl _)
    rw [h13] at hm
    constructor
    · simp [bandLoop]
    · simp only [bandLoop, List.length_nil]
      omega
  | succ fuel ih =>
    intro sfb hsfb
    simp only [bandLoop]
    by_cases hc : 3 * bands.getD sfb 0 < rzero
    · rw [if_pos hc]
      have hsfb12 : sfb ≤ 12 := by
        by_contra hgt
        have hs13 : sfb = 13 := by omega
        rw [hs13, h13] at hc
        omega
      obtain ⟨ihp, ihb⟩ := ih (sfb + 1) (by omega)
      have hmo : bands.getD sfb 0 ≤ bands.getD (sfb + 1) 0 :=
        hmono sfb (sfb + 1) (by omega) (by omega)
      have hm13 : bands.getD (sfb + 1) 0 ≤ 192 := by
        have := hmono (sfb + 1) 13 (by omega) (le_refl _)
        omega
    -- the interleaved band occupies `[3*bands[sfb], 3*bands[sfb+1])`
      constructor
      · rw [List.length_append, interleaveBand_length, List.take_add]
        apply List.Perm.append
        · exact interleave_perm buf _ _ (by rw [hbuf]; omega)
        · rw [List.drop_drop]
          rw [show 3 * bands.getD sfb 0 +
                3 * (bands.getD (sfb + 1) 0 - bands.getD sfb 0)
              = 3 * bands.getD (sfb + 1) 0 from by omega]
          exact ihp
      · rw [List.length_append, interleaveBand_length]
        omega
    · rw [if_neg hc]
      have hm := hmono sfb 13 hsfb (le_refl _)
      rw [h13] at hm
      constructor
      · simp
      · simp only [List.length_nil]
        omega

theorem bandLoop_len_ge (bands : List Nat) (rzero : Nat) (buf : List Int)
    (hmono : ∀ a b, a ≤ b → b ≤ 13 → bands.getD a 0 ≤ bands.getD b 0) :
    ∀ (fuel sfb s : Nat), sfb ≤ s → s - sfb < fuel → s ≤ 12 →
    3 * bands.getD s 0 < rzero →
    3 * bands.getD (s + 1) 0 - 3 * bands.getD sfb 0
      ≤ (bandLoop bands rzero buf fuel sfb).length := by
  intro fuel
  induction fuel with
  | zero =>
    intro sfb s h1 h2
    omega
  | succ fuel ih =>
    intro sfb s hss hfuel hs12 hs
    simp only [bandLoop]
    have hcont : 3 * bands.getD sfb 0 < rzero := by
      have := hmono sfb s hss (by omega)
      omega
    rw [if_pos hcont, List.length_append, interleaveBand_length]
    by_cases heq : s = sfb
    · have hm := hmono s (s + 1) (by omega) (by omega)
      rw [heq] at hm ⊢
      omega
    · have hrec := ih (sfb + 1) s (by omega) (by omega) hs12 hs
      have hm1 : bands.getD sfb 0 ≤ bands.getD (sfb + 1) 0 :=
        hmono _ _ (by omega) (by omega)
      omega

theorem bandLoop_getD (bands : List Nat) (rzero : Nat) (buf : List Int)
    (hmono : ∀ a b, a ≤ b → b ≤ 13 → bands.getD a 0 ≤ bands.getD b 0)
    (h13 : bands.getD 13 0 = 192) (hlen : bands.length = 14)
    (hrz : rzero ≤ 576) :
    ∀ (fuel sfb s : Nat), sfb ≤ s → s - sfb < fuel →
    3 * bands.getD s 0 < rzero →
    ∀ q, q < 3 * (bands.getD (s + 1) 0 - bands.getD s 0) →
    (bandLoop bands rzero buf fuel sfb).getD
        (3 * bands.getD s 0 - 3 * bands.getD sfb 0 + q) 0
      = buf.getD (3 * bands.getD s 0
          + q % 3 * (bands.getD (s + 1) 0 - bands.getD s 0) + q / 3) 0 := by
  intro fuel
  induction fuel with
  | zero =>
    intro sfb s h1 h2
    omega
  | succ fuel ih =>
    intro sfb s hss hfuel hsrz q hq
    have hs12 : s ≤ 12 := by
      by_contra hgt
      by_cases hs13 : s = 13
      · rw [hs13, h13] at hsrz
        omega
      · have hz1 : bands.getD s 0 = 0 :=
          List.getD_eq_default _ _ (by omega)
        have hz2 : bands.getD (s + 1) 0 = 0 :=
          List.getD_eq_default _ _ (by omega)
        rw [hz1, hz2] at hq
        omega
    simp only [bandLoop]
    have hcont : 3 * bands.getD sfb 0 < rzero := by
      have := hmono sfb s hss (by omega)
      omega
    rw [if_pos hcont]
    by_cases heq : s = sfb
    · have hq2 : q < 3 * (bands.getD (sfb + 1) 0 - bands.getD sfb 0) := by
        rw [← heq]
        exact hq
      have hoff0 : 3 * bands.getD s 0 - 3 * bands.getD sfb 0 + q = q := by
        rw [heq]
        omega
      rw [hoff0, heq]
      rw [getD_append_left _ _ _ (by rw [interleaveBand_length]; exact hq2)]
      unfold interleaveBand
      rw [getD_map_range _ _ _ _ hq2]
    · have hm1 : bands.getD sfb 0 ≤ bands.getD (sfb + 1) 0 :=
        hmono _ _ (by omega) (by omega)
      have hm2 : bands.getD (sfb + 1) 0 ≤ bands.getD s 0 :=
        hmono _ _ (by omega) (by omega)
      have hoff : 3 * bands.getD s 0 - 3 * bands.getD sfb 0 + q
          = (interleaveBand buf (3 * bands.getD sfb 0)
              (bands.getD (sfb + 1) 0 - bands.getD sfb 0)).length
            + (3 * bands.getD s 0 - 3 * bands.getD (sfb + 1) 0 + q) := by
        rw [interleaveBand_length]
        omega
      rw [hoff, getD_append_right]
      exact ih (sfb + 1) s (by omega) (by omega) hsrz q hq

/-- C9: for Short blocks `l3_reorder` permutes the 576-sample buffer (the
multiset of values is preserved); within each short scale factor band below
`rzero` of window length `W`, the three windows laid out consecutively become
interleaved (`result[band + 3k + w] = original[band + w*W + k]`); for mixed
blocks only the short portion starting at short band 3 is touched (the
prefix before it is unchanged); and non-Short block types leave the buffer
untouched. -/
theorem c9_reorder_spec (srateIdx : Nat) (isMixed : Bool) (rzero : Nat)
    (buf : List Int) (hsr : srateIdx < 9) (hrz : rzero ≤ 576)
    (hbuf : buf.length = 576) :
    (l3Reorder srateIdx (BlockType.short isMixed) rzero buf).Perm buf ∧
    (∀ s, (if isMixed then 3 else 0) ≤ s →
      3 * (scaleFactorShortBands.getD srateIdx []).getD s 0 < rzero →
      ∀ w k, w < 3 →
        k < (scaleFactorShortBands.getD srateIdx []).getD (s + 1) 0 -
            (scaleFactorShortBands.getD srateIdx []).getD s 0 →
        (l3Reorder srateIdx (BlockType.short isMixed) rzero buf).getD
          (3 * (scaleFactorShortBands.getD srateIdx []).getD s 0
            + 3 * k + w) 0
        = buf.getD
            (3 * (scaleFactorShortBands.getD srateIdx []).getD s 0 +
              w * ((scaleFactorShortBands.getD srateIdx []).getD (s + 1) 0 -
                (scaleFactorShortBands.getD srateIdx []).getD s 0) + k) 0) ∧
    (∀ j, j < 3 * (scaleFactorShortBands.getD srateIdx []).getD
        (if isMixed then 3 else 0) 0 →
      (l3Reorder srateIdx (BlockType.short isMixed) rzero buf).getD j 0
        = buf.getD j 0) ∧
    (∀ bt : BlockType, (∀ m, bt ≠ BlockType.short m) →
      l3Reorder srateIdx bt rzero buf = buf) := by
  have hmono : ∀ a b, a ≤ b → b ≤ 13 →
      (scaleFactorShortBands.getD srateIdx []).getD a 0 ≤
        (scaleFactorShortBands.getD srateIdx []).getD b 0 := by
    intro a b hab hb13
    exact sfb_bands_mono srateIdx hsr a (by omega) b (by omega) hab
  have h13 := sfb_bands_13 srateIdx hsr
  have hlen14 := sfb_bands_len srateIdx hsr
  have hsfb0 : (if isMixed then 3 else 0) ≤ 13 := by split <;> omega
  have hdef : l3Reorder srateIdx (BlockType.short isMixed) rzero buf
      = buf.take (3 * (scaleFactorShortBands.getD srateIdx []).getD
            (if isMixed then 3 else 0) 0)
        ++ bandLoop (scaleFactorShortBands.getD srateIdx []) rzero buf 14
            (if isMixed then 3 else 0)
        ++ buf.drop (3 * (scaleFactorShortBands.getD srateIdx []).getD
              (if isMixed then 3 else 0) 0
            + (bandLoop (scaleFactorShortBands.getD srateIdx []) rzero buf 14
                (if isMixed then 3 else 0)).length) := rfl
  obtain ⟨hBp, hBb⟩ := bandLoop_perm (scaleFactorShortBands.getD srateIdx [])
    rzero buf hmono h13 hrz hbuf 14 (if isMixed then 3 else 0) hsfb0
  have hstart576 : 3 * (scaleFactorShortBands.getD srateIdx []).getD
      (if isMixed then 3 else 0) 0 ≤ 576 := by
    have := hmono (if isMixed then 3 else 0) 13 hsfb0 (le_refl _)
    omega
  have htl : (buf.take (3 * (scaleFactorShortBands.getD srateIdx []).getD
      (if isMixed then 3 else 0) 0)).length
      = 3 * (scaleFactorShortBands.getD srateIdx []).getD
          (if isMixed then 3 else 0) 0 :=
    take_length_eq _ _ (by omega)
  refine ⟨?_, ?_, ?_, ?_⟩
  · rw [hdef, List.append_assoc]
    refine List.Perm.trans ((hBp.append_right _).append_left _) ?_
    have hEq : buf.take (3 * (scaleFactorShortBands.getD srateIdx []).getD
          (if isMixed then 3 else 0) 0)
        ++ ((buf.drop (3 * (scaleFactorShortBands.getD srateIdx []).getD
              (if isMixed then 3 else 0) 0)).take
            ((bandLoop (scaleFactorShortBands.getD srateIdx []) rzero buf 14
              (if isMixed then 3 else 0)).length)
          ++ buf.drop (3 * (scaleFactorShortBands.getD srateIdx []).getD
              (if isMixed then 3 else 0) 0
            + (bandLoop (scaleFactorShortBands.getD srateIdx []) rzero buf 14
                (if isMixed then 3 else 0)).length)) = buf := by
      rw [← List.drop_drop, List.take_append_drop, List.take_append_drop]
    rw [hEq]
  · intro s hs0 hsrz w k hw hk
    have hs12 : s ≤ 12 := by
      by_contra hgt
      by_cases hs13 : s = 13
      · rw [hs13, h13] at hsrz
        omega
      · have hz1 : (scaleFactorShortBands.getD srateIdx []).getD s 0 = 0 :=
          List.getD_eq_default _ _ (by omega)
        have hz2 : (scaleFactorShortBands.getD srateIdx []).getD (s + 1) 0
            = 0 := List.getD_eq_default _ _ (by omega)
        rw [hz1, hz2] at hk
        omega
    have hsp := hmono (if isMixed then 3 else 0) s hs0 (by omega)
    have hmss := hmono s (s + 1) (by omega) (by omega)
    have hlenge := bandLoop_len_ge (scaleFactorShortBands.getD srateIdx [])
      rzero buf hmono 14 (if isMixed then 3 else 0) s hs0 (by omega) hs12 hsrz
    rw [hdef, List.append_assoc]
    rw [show 3 * (scaleFactorShortBands.getD srateIdx []).getD s 0
          + 3 * k + w
        = (buf.take (3 * (scaleFactorShortBands.getD srateIdx []).getD
            (if isMixed then 3 else 0) 0)).length
          + (3 * (scaleFactorShortBands.getD srateIdx []).getD s 0
            - 3 * (scaleFactorShortBands.getD srateIdx []).getD
                (if isMixed then 3 else 0) 0 + (3 * k + w)) from by
      rw [htl]; omega]
    rw [getD_append_right]
    rw [getD_append_left _ _ _ (by omega)]
    rw [bandLoop_getD (scaleFactorShortBands.getD srateIdx []) rzero buf
      hmono h13 hlen14 hrz 14 (if isMixed then 3 else 0) s hs0 (by omega)
      hsrz (3 * k + w) (by omega)]
    rw [show (3 * k + w) % 3 = w from by omega,
        show (3 * k + w) / 3 = k from by omega]
  · intro j hj
    rw [hdef, List.append_assoc]
    rw [getD_append_left _ _ _ (by rw [htl]; exact hj)]
    exact getD_take _ _ _ _ hj
  · intro bt hbt
    cases bt with
    | long => rfl
    | start => rfl
    | short m => exact absurd rfl (hbt m)
    | stop => rfl

/-- C9 witness: for the 44.1 kHz table, a non-mixed Short block with
`rzero = 576`, reordering an all-ones buffer yields a permutation of it. -/
theorem c9_reorder_spec_witness :
    (l3Reorder 0 (BlockType.short false) 576 bufOnes).Perm bufOnes :=
  (c9_reorder_spec 0 false 576 bufOnes (by decide) (by decide)
    (by decide)).1
